import Mathlib

/-!
Bethe-Bloch fitter, `MassEstimator.h`.

A shallow embedding of `src/mk_NewFitter_20190111/MassEstimator.h` and a verification of its
natural-language specification against it.

* `Double_t` is modelled by a linearly ordered field `α`; the theorems take `α = ℝ`, the
  executable definitions also run over `ℚ`.
* ROOT's `TMath::Log`, `TMath::Log10`, `TMath::Sqrt`, `TMath::Power` are library functions that are
  not part of the repository: every definition takes them as a parameter `T : TMath α`, and the
  theorems about real numbers assume `T.IsReal`, i.e. that they are the real functions
  `Real.log`, `Real.logb 10`, `Real.sqrt` and the real power.
* `Double_t*` arguments are lists, read with the `Option`-valued lookup `p[i]?`; a value that the
  source may leave unassigned (`d_Ar`, `d_CH4`) is an `Option` as well.
* Floating-point rounding is not modelled: a statement about `ℝ` is a statement about the
  formulas the source evaluates.
-/

namespace MassEstimator

/-- The functions of ROOT's `TMath` that `MassEstimator.h` calls. -/
structure TMath (α : Type) where
  /-- Natural logarithm, `TMath::Log` -/
  Log : α → α
  /-- Logarithm in base 10, `TMath::Log10` -/
  Log10 : α → α
  /-- Square root, `TMath::Sqrt` -/
  Sqrt : α → α
  /-- Power `x^y`, `TMath::Power(x, y)` -/
  Power : α → α → α

/-- The `TMath` functions are the exact real functions. -/
def TMath.IsReal (T : TMath ℝ) : Prop :=
  T.Log = Real.log ∧ T.Log10 = Real.logb 10 ∧ T.Sqrt = Real.sqrt ∧ T.Power = fun x y => x ^ y

section Source

variable {α : Type} [LinearOrderedField α]

/-! ## Constants (lines 3-53) -/

def amu : α := 931.478
def kmpi : α := 139.57018
def kmp : α := 938.2720813
def kmd : α := 1875.612762
def kmt : α := 2808.921112
def kmhe3 : α := 2808.39132
def kmal : α := 3727.379378
def kmhe6 : α := 6.0188*amu
def kmli6 : α := 6.0151*amu
def kmli7 : α := 7.016*amu
def kme : α := 0.5109989461

def K : α := 0.307075

def rho_P10 : α := 1.534*1.0e-3

def Z_Ar : α := 18
def Z_C : α := 6
def Z_H : α := 1
def Z_eff : α := 0.9*Z_Ar + 0.1*(Z_C+4*Z_H)
def A_Ar : α := 39.95
def A_C : α := 12.01
def A_H : α := 1.00794
def A_eff : α := 0.9*A_Ar + 0.1*(A_C+4*A_H)
def I_Ar : α := 188.0*1.0e-6
def I_CH4 : α := 41.7*1.0e-6
def lnI_eff (T : TMath α) : α := (0.9*Z_Ar*T.Log I_Ar + 0.1*(Z_C+Z_H*4)*T.Log I_CH4)/Z_eff

def C_Ar : α := 11.948
def a_Ar : α := 0.19714
def x0_Ar : α := 1.7635
def x1_Ar : α := 4.4855
def k_Ar : α := 2.9618

def C_CH4 : α := 9.5243
def a_CH4 : α := 0.09253
def x0_CH4 : α := 1.6263
def x1_CH4 : α := 3.9716
def k_CH4 : α := 3.6257

def ln10 (T : TMath α) : α := T.Log 10

/-! ## Density correction (lines 86-102) -/

/-- Source function `MassEstimator::delta_Ar`; `none` is the path on which `d_Ar` is returned unassigned. -/
def delta_Ar (T : TMath α) (x : α) : Option α :=
  if x < x0_Ar then some 0
  else if x ≥ x0_Ar ∧ x < x1_Ar then some (2*ln10 T*x - C_Ar + a_Ar*T.Power (x1_Ar-x) k_Ar)
  else if x ≥ x1_Ar then some (2*ln10 T*x - C_Ar)
  else none

/-- Source function `MassEstimator::delta_CH4`; `none` is the path on which `d_CH4` is returned unassigned. -/
def delta_CH4 (T : TMath α) (x : α) : Option α :=
  if x < x0_CH4 then some 0
  else if x ≥ x0_CH4 ∧ x < x1_CH4 then some (2*ln10 T*x - C_CH4 + a_CH4*T.Power (x1_CH4-x) k_CH4)
  else if x ≥ x1_CH4 then some (2*ln10 T*x - C_CH4)
  else none

/-! ## Bethe-Bloch mean energy loss (lines 104-160) -/

/-- Source function `MassEstimator::fBBdedx`: `x[0]` is the rigidity, `p[0]` the normalization, `p[1]` the
offset. -/
def fBBdedx (T : TMath α) (z m : α) (x p : List α) : Option α := do
  let mom := (← x[0]?)*z
  let b2 := mom*mom/(mom*mom+m*m)
  let g2 := 1/(1-b2)
  let g := T.Sqrt g2
  let Wmax := 2*kme*b2*g2/(1+2*g*kme/m+T.Power (kme/m) 2)
  let X := T.Log10 (T.Sqrt (b2*g2))
  let d_Ar ← delta_Ar T X
  let d_CH4 ← delta_CH4 T X
  let delta_eff := (0.9*Z_Ar*d_Ar+0.1*(Z_C+Z_H*4)*d_CH4)/Z_eff
  let dedx := K*rho_P10*z*z*Z_eff/A_eff/b2*(0.5*T.Log (2*kme*b2*g2*Wmax)-lnI_eff T-b2-0.5*delta_eff)
  return (← p[0]?)*dedx+(← p[1]?)

/-- Source function `MassEstimator::BBMassFinderEq`: `x[0]` is the mass, `p[0]`, `p[1]` as in `fBBdedx`,
`p[2]` the charge, `p[3]` the rigidity, `p[4]` the measured dE/dx. -/
def BBMassFinderEq (T : TMath α) (x p : List α) : Option α := do
  let m ← x[0]?
  let z ← p[2]?
  let mom := (← p[3]?)*z
  let b2 := mom*mom/(mom*mom+m*m)
  let g2 := 1/(1-b2)
  let g := T.Sqrt g2
  let Wmax := 2*kme*b2*g2/(1+2*g*kme/m+T.Power (kme/m) 2)
  let X := T.Log10 (T.Sqrt (b2*g2))
  let d_Ar ← delta_Ar T X
  let d_CH4 ← delta_CH4 T X
  let delta_eff := (0.9*Z_Ar*d_Ar+0.1*(Z_C+Z_H*4)*d_CH4)/Z_eff
  let dedx := K*rho_P10*z*z*Z_eff/A_eff/b2*(0.5*T.Log (2*kme*b2*g2*Wmax)-lnI_eff T-b2-0.5*delta_eff)
  return (← p[4]?) - (← p[0]?)*dedx-(← p[1]?)

/-- Source function `MassEstimator::CalcBBMass`. The `ROOT::Math::RootFinder` is external: `finder f lo hi` is the
pair of the flag returned by `Solve()` and the value returned by `Root()` for the function `f` on
the bracket `[lo, hi]`. The `TF1` is built with 5 parameters, so `SetParameters` copies `p[0..4]`. -/
def CalcBBMass (finder : (α → Option α) → α → α → Bool × α) (T : TMath α) (p : List α) : α :=
  let bbfit : α → Option α := fun m => BBMassFinderEq T [m] (p.take 5)
  (finder bbfit 0.1 10000).2

/-! ## Landau-Vavilov most probable energy loss (lines 163-216) -/

/-- Source function `MassEstimator::fLVdedx`: `p[0]` is the normalization, `p[1]` the offset, `p[2]` the detector
thickness. -/
def fLVdedx (T : TMath α) (z m : α) (x p : List α) : Option α := do
  let mom := (← x[0]?)*z
  let b2 := mom*mom/(mom*mom+m*m)
  let g2 := 1/(1-b2)
  let X := T.Log10 (T.Sqrt (b2*g2))
  let d_Ar ← delta_Ar T X
  let d_CH4 ← delta_CH4 T X
  let delta_eff := (0.9*Z_Ar*d_Ar+0.1*(Z_C+Z_H*4)*d_CH4)/Z_eff
  let p2 ← p[2]?
  let t := rho_P10*p2
  let xi := K/2*Z_eff/A_eff*z*z/b2*t
  let delta_p := xi*(T.Log (2*kme*b2*g2)+T.Log xi-2*lnI_eff T+0.2-b2-delta_eff)
  return (← p[0]?)*delta_p/p2+(← p[1]?)

/-- Source function `MassEstimator::LVMassFinderEq`: `x[0]` is the mass, `p[3]` the charge, `p[4]` the rigidity,
and the measured dE/dx is read from `p[6]`. -/
def LVMassFinderEq (T : TMath α) (x p : List α) : Option α := do
  let m ← x[0]?
  let z ← p[3]?
  let mom := (← p[4]?)*z
  let b2 := mom*mom/(mom*mom+m*m)
  let g2 := 1/(1-b2)
  let X := T.Log10 (T.Sqrt (b2*g2))
  let d_Ar ← delta_Ar T X
  let d_CH4 ← delta_CH4 T X
  let delta_eff := (0.9*Z_Ar*d_Ar+0.1*(Z_C+Z_H*4)*d_CH4)/Z_eff
  let p2 ← p[2]?
  let t := rho_P10*p2
  let xi := K/2*Z_eff/A_eff*z*z/b2*t
  let delta_p := xi*(T.Log (2*kme*b2*g2)+T.Log xi-2*lnI_eff T+0.2-b2-delta_eff)
  return (← p[6]?) - ((← p[0]?)*delta_p/p2+(← p[1]?))

/-- Source function `MassEstimator::CalcLVMass`, with the root finder as in `CalcBBMass`. The
`TF1` is built with 6 parameters, so `SetParameters` copies `p[0..5]`. -/
def CalcLVMass (finder : (α → Option α) → α → α → Bool × α) (T : TMath α) (p : List α) : α :=
  let lvfit : α → Option α := fun m => LVMassFinderEq T [m] (p.take 6)
  (finder lvfit 0.1 10000).2

/-! ## Particle species (lines 58-76) -/

def fBBdedx_pim (T : TMath α) (x p : List α) : Option α := fBBdedx T (-1) kmpi x p
def fBBdedx_pi (T : TMath α) (x p : List α) : Option α := fBBdedx T 1 kmpi x p
def fBBdedx_p (T : TMath α) (x p : List α) : Option α := fBBdedx T 1 kmp x p
def fBBdedx_d (T : TMath α) (x p : List α) : Option α := fBBdedx T 1 kmd x p
def fBBdedx_t (T : TMath α) (x p : List α) : Option α := fBBdedx T 1 kmt x p
def fBBdedx_he3 (T : TMath α) (x p : List α) : Option α := fBBdedx T 2 kmhe3 x p
def fBBdedx_al (T : TMath α) (x p : List α) : Option α := fBBdedx T 2 kmal x p
def fBBdedx_he6 (T : TMath α) (x p : List α) : Option α := fBBdedx T 2 kmhe6 x p
def fBBdedx_li6 (T : TMath α) (x p : List α) : Option α := fBBdedx T 3 kmli6 x p
def fBBdedx_li7 (T : TMath α) (x p : List α) : Option α := fBBdedx T 3 kmli7 x p

def fLVdedx_p (T : TMath α) (x p : List α) : Option α := fLVdedx T 1 kmp x p
def fLVdedx_d (T : TMath α) (x p : List α) : Option α := fLVdedx T 1 kmd x p
def fLVdedx_t (T : TMath α) (x p : List α) : Option α := fLVdedx T 1 kmt x p
def fLVdedx_he3 (T : TMath α) (x p : List α) : Option α := fLVdedx T 2 kmhe3 x p
def fLVdedx_al (T : TMath α) (x p : List α) : Option α := fLVdedx T 2 kmal x p
def fLVdedx_he6 (T : TMath α) (x p : List α) : Option α := fLVdedx T 2 kmhe6 x p
def fLVdedx_li6 (T : TMath α) (x p : List α) : Option α := fLVdedx T 3 kmli6 x p
def fLVdedx_li7 (T : TMath α) (x p : List α) : Option α := fLVdedx T 3 kmli7 x p

/-! ## Values computed by the source functions

The source functions read their arguments from arrays and may leave a variable unassigned;
the values they compute once the reads succeed are defined here. -/

/-- The value `delta_Ar` and `delta_CH4` assign: the three-branch density correction for the
parameter set `(C, a, x0, x1, k)`. -/
def deltaValue (T : TMath α) (C a x0 x1 k x : α) : α :=
  if x < x0 then 0
  else if x < x1 then 2*ln10 T*x - C + a*T.Power (x1-x) k
  else 2*ln10 T*x - C

/-- The value of `dedx` in `fBBdedx` and in `BBMassFinderEq` (lines 110-121 and 136-146) for
the momentum `mom`, the charge `z` and the mass `m`. -/
def dedxBB (T : TMath α) (z m mom : α) : α :=
  let b2 := mom*mom/(mom*mom+m*m)
  let g2 := 1/(1-b2)
  let g := T.Sqrt g2
  let Wmax := 2*kme*b2*g2/(1+2*g*kme/m+T.Power (kme/m) 2)
  let X := T.Log10 (T.Sqrt (b2*g2))
  let d_Ar := deltaValue T C_Ar a_Ar x0_Ar x1_Ar k_Ar X
  let d_CH4 := deltaValue T C_CH4 a_CH4 x0_CH4 x1_CH4 k_CH4 X
  let delta_eff := (0.9*Z_Ar*d_Ar+0.1*(Z_C+Z_H*4)*d_CH4)/Z_eff
  K*rho_P10*z*z*Z_eff/A_eff/b2*(0.5*T.Log (2*kme*b2*g2*Wmax)-lnI_eff T-b2-0.5*delta_eff)

/-- The value of `delta_p` in `fLVdedx` and in `LVMassFinderEq` (lines 168-180 and 190-202) for
the momentum `mom`, the charge `z`, the mass `m` and the thickness `p2`. -/
def deltapLV (T : TMath α) (z m mom p2 : α) : α :=
  let b2 := mom*mom/(mom*mom+m*m)
  let g2 := 1/(1-b2)
  let X := T.Log10 (T.Sqrt (b2*g2))
  let d_Ar := deltaValue T C_Ar a_Ar x0_Ar x1_Ar k_Ar X
  let d_CH4 := deltaValue T C_CH4 a_CH4 x0_CH4 x1_CH4 k_CH4 X
  let delta_eff := (0.9*Z_Ar*d_Ar+0.1*(Z_C+Z_H*4)*d_CH4)/Z_eff
  let t := rho_P10*p2
  let xi := K/2*Z_eff/A_eff*z*z/b2*t
  xi*(T.Log (2*kme*b2*g2)+T.Log xi-2*lnI_eff T+0.2-b2-delta_eff)

end Source

/-! # Theorems -/

section Closed

variable {α : Type} [LinearOrderedField α]

/-- The result of `delta_Ar` is always assigned, with the value `deltaValue`. -/
theorem delta_Ar_eq (T : TMath α) (x : α) :
    delta_Ar T x = some (deltaValue T C_Ar a_Ar x0_Ar x1_Ar k_Ar x) := by
  unfold delta_Ar deltaValue
  by_cases h0 : x < x0_Ar
  · simp [h0]
  · by_cases h1 : x < x1_Ar
    · simp [h0, h1, le_of_not_lt h0]
    · simp [h0, h1, le_of_not_lt h1]

/-- The result of `delta_CH4` is always assigned, with the value `deltaValue`. -/
theorem delta_CH4_eq (T : TMath α) (x : α) :
    delta_CH4 T x = some (deltaValue T C_CH4 a_CH4 x0_CH4 x1_CH4 k_CH4 x) := by
  unfold delta_CH4 deltaValue
  by_cases h0 : x < x0_CH4
  · simp [h0]
  · by_cases h1 : x < x1_CH4
    · simp [h0, h1, le_of_not_lt h0]
    · simp [h0, h1, le_of_not_lt h1]

/-- With its arrays long enough, `fBBdedx` returns `p[0]*dedx + p[1]`. -/
theorem fBBdedx_eq (T : TMath α) (z m r p0 p1 : α) (xs ps : List α) :
    fBBdedx T z m (r :: xs) (p0 :: p1 :: ps) = some (p0 * dedxBB T z m (r*z) + p1) := by
  simp [fBBdedx, dedxBB, delta_Ar_eq, delta_CH4_eq]

/-- With its arrays long enough, `BBMassFinderEq` returns `p[4] - p[0]*dedx - p[1]`. -/
theorem BBMassFinderEq_eq (T : TMath α) (m p0 p1 p2 p3 p4 : α) (xs ps : List α) :
    BBMassFinderEq T (m :: xs) (p0 :: p1 :: p2 :: p3 :: p4 :: ps)
      = some (p4 - p0 * dedxBB T p2 m (p3*p2) - p1) := by
  simp [BBMassFinderEq, dedxBB, delta_Ar_eq, delta_CH4_eq]

/-- With its arrays long enough, `fLVdedx` returns `p[0]*delta_p/p[2] + p[1]`. -/
theorem fLVdedx_eq (T : TMath α) (z m r p0 p1 p2 : α) (xs ps : List α) :
    fLVdedx T z m (r :: xs) (p0 :: p1 :: p2 :: ps)
      = some (p0 * deltapLV T z m (r*z) p2 / p2 + p1) := by
  simp [fLVdedx, deltapLV, delta_Ar_eq, delta_CH4_eq]

/-- With its arrays long enough, `LVMassFinderEq` returns
`p[6] - (p[0]*delta_p/p[2] + p[1])`. -/
theorem LVMassFinderEq_eq (T : TMath α) (m p0 p1 p2 p3 p4 p5 p6 : α) (xs ps : List α) :
    LVMassFinderEq T (m :: xs) (p0 :: p1 :: p2 :: p3 :: p4 :: p5 :: p6 :: ps)
      = some (p6 - (p0 * deltapLV T p3 m (p4*p3) p2 / p2 + p1)) := by
  simp [LVMassFinderEq, deltapLV, delta_Ar_eq, delta_CH4_eq]

end Closed

/-! ## The real `TMath` functions -/

/-- Under `IsReal`, `TMath::Log` is the real logarithm. -/
theorem TMath.IsReal.log {T : TMath ℝ} (hT : T.IsReal) (x : ℝ) : T.Log x = Real.log x := by
  rw [hT.1]

/-- Under `IsReal`, `TMath::Log10` is the real logarithm in base 10. -/
theorem TMath.IsReal.log10 {T : TMath ℝ} (hT : T.IsReal) (x : ℝ) :
    T.Log10 x = Real.logb 10 x := by
  rw [hT.2.1]

/-- Under `IsReal`, `TMath::Sqrt` is the real square root. -/
theorem TMath.IsReal.sqrt {T : TMath ℝ} (hT : T.IsReal) (x : ℝ) : T.Sqrt x = Real.sqrt x := by
  rw [hT.2.2.1]

/-- Under `IsReal`, `TMath::Power` is the real power. -/
theorem TMath.IsReal.power {T : TMath ℝ} (hT : T.IsReal) (x y : ℝ) : T.Power x y = x ^ y := by
  rw [hT.2.2.2]

/-- Under `IsReal`, `TMath::Power(x, 2.)` is the square. -/
theorem TMath.IsReal.power_two {T : TMath ℝ} (hT : T.IsReal) (x : ℝ) : T.Power x 2 = x ^ 2 := by
  rw [hT.power, Real.rpow_two]

/-- The real functions satisfy `TMath.IsReal`. -/
theorem isReal_mk : TMath.IsReal ⟨Real.log, Real.logb 10, Real.sqrt, fun x y => x ^ y⟩ :=
  ⟨rfl, rfl, rfl, rfl⟩

/-! ## The residuals are measured minus predicted (C3, C4) -/

/-- C3. For every mass `m` and every parameter vector `[p0, p1, p2, p3, p4]`, `fBBdedx` for the
charge `p2`, the rigidity `p3` and the calibration `(p0, p1)` returns a value `v`, and
`BBMassFinderEq([m], p)` returns `p4 - v`: the formula duplicated inside the residual agrees
with `fBBdedx`. This holds over every ordered field and for every implementation of the `TMath`
functions, in particular over the reals. -/
theorem BBMassFinderEq_eq_measured_sub_fBBdedx {α : Type} [LinearOrderedField α] (T : TMath α)
    (m p0 p1 p2 p3 p4 : α) :
    ∃ v, fBBdedx T p2 m [p3] [p0, p1] = some v ∧
      BBMassFinderEq T [m] [p0, p1, p2, p3, p4] = some (p4 - v) := by
  refine ⟨p0 * dedxBB T p2 m (p3*p2) + p1, fBBdedx_eq .., ?_⟩
  rw [BBMassFinderEq_eq]
  congr 1
  ring

/-- C4. For every mass `m` and every parameter vector `p` with at least 7 entries, `fLVdedx` for
the charge `p[3]`, the rigidity `p[4]` and the calibration `(p[0], p[1], p[2])` returns a value
`v`, `LVMassFinderEq([m], p)` returns `p[6] - v`, and the residual is `0` at `m` when
`p[6] = v`. This holds over every ordered field and for every implementation of the `TMath`
functions, in particular over the reals. -/
theorem LVMassFinderEq_eq_measured_sub_fLVdedx {α : Type} [LinearOrderedField α] (T : TMath α)
    (m p0 p1 p2 p3 p4 p5 : α) (rest : List α) :
    ∃ v, fLVdedx T p3 m [p4] [p0, p1, p2] = some v ∧
      (∀ p6, LVMassFinderEq T [m] (p0 :: p1 :: p2 :: p3 :: p4 :: p5 :: p6 :: rest)
        = some (p6 - v)) ∧
      LVMassFinderEq T [m] (p0 :: p1 :: p2 :: p3 :: p4 :: p5 :: v :: rest) = some 0 := by
  refine ⟨p0 * deltapLV T p3 m (p4*p3) p2 / p2 + p1, fLVdedx_eq .., fun p6 => ?_, ?_⟩
  · rw [LVMassFinderEq_eq]
  · rw [LVMassFinderEq_eq, sub_self]

/-! ## The source functions compute the formulas of the specification (C5, C6) -/

/-- C5. Over the reals, `fBBdedx` returns the mean energy loss of the specification: with
`P = rigidity*z`, `b2 = P²/(P²+m²)`, `g2 = 1/(1-b2)`,
`Wmax = 2 m_e b2 g2 / (1 + 2 √g2 m_e/m + (m_e/m)²)`, `X = log10 √(b2 g2)`, the two density
corrections `delta_Ar(X)`, `delta_CH4(X)` are assigned and the result is
`p0 * [K ρ z² (Z_eff/A_eff)/b2 * (0.5 ln(2 m_e b2 g2 Wmax) - lnI_eff - b2 - 0.5 δ_eff)] + p1`
with `δ_eff = (0.9 Z_Ar delta_Ar(X) + 0.1 (Z_C + 4 Z_H) delta_CH4(X)) / Z_eff`. -/
theorem fBBdedx_eq_spec_formula (T : TMath ℝ) (hT : T.IsReal) (z m rigidity p0 p1 : ℝ) :
    let P := rigidity * z
    let b2 := P ^ 2 / (P ^ 2 + m ^ 2)
    let g2 := 1 / (1 - b2)
    let Wmax := 2 * kme * b2 * g2 / (1 + 2 * Real.sqrt g2 * kme / m + (kme / m) ^ 2)
    let X := Real.logb 10 (Real.sqrt (b2 * g2))
    ∃ dAr dCH4, delta_Ar T X = some dAr ∧ delta_CH4 T X = some dCH4 ∧
      fBBdedx T z m [rigidity] [p0, p1]
        = some (p0 * (K * rho_P10 * z ^ 2 * (Z_eff / A_eff) / b2
            * (0.5 * Real.log (2 * kme * b2 * g2 * Wmax) - lnI_eff T - b2
                - 0.5 * ((0.9 * Z_Ar * dAr + 0.1 * (Z_C + 4 * Z_H) * dCH4) / Z_eff))) + p1) := by
  intro P b2 g2 Wmax X
  refine ⟨_, _, delta_Ar_eq T X, delta_CH4_eq T X, ?_⟩
  rw [fBBdedx_eq]
  simp only [dedxBB, hT.power_two, hT.log, hT.sqrt, hT.log10, P, b2, g2, Wmax, X]
  congr 1
  ring_nf

/-- Witness of C5 at the proton example `z = 1`, `m = 938.272`, `rigidity = 1000`,
`calib = (1, 0)`. -/
theorem fBBdedx_eq_spec_formula_witness :
    TMath.IsReal ⟨Real.log, Real.logb 10, Real.sqrt, fun x y => x ^ y⟩ ∧
    (let P : ℝ := 1000 * 1
     let b2 := P ^ 2 / (P ^ 2 + 938.272 ^ 2)
     let g2 := 1 / (1 - b2)
     let Wmax := 2 * kme * b2 * g2 / (1 + 2 * Real.sqrt g2 * kme / 938.272 + (kme / 938.272) ^ 2)
     let X := Real.logb 10 (Real.sqrt (b2 * g2))
     ∃ dAr dCH4,
      delta_Ar ⟨Real.log, Real.logb 10, Real.sqrt, fun x y => x ^ y⟩ X = some dAr ∧
      delta_CH4 ⟨Real.log, Real.logb 10, Real.sqrt, fun x y => x ^ y⟩ X = some dCH4 ∧
      fBBdedx ⟨Real.log, Real.logb 10, Real.sqrt, fun x y => x ^ y⟩ 1 938.272 [1000] [1, 0]
        = some (1 * (K * rho_P10 * 1 ^ 2 * (Z_eff / A_eff) / b2
            * (0.5 * Real.log (2 * kme * b2 * g2 * Wmax)
                - lnI_eff ⟨Real.log, Real.logb 10, Real.sqrt, fun x y => x ^ y⟩ - b2
                - 0.5 * ((0.9 * Z_Ar * dAr + 0.1 * (Z_C + 4 * Z_H) * dCH4) / Z_eff))) + 0)) :=
  ⟨isReal_mk, fBBdedx_eq_spec_formula _ isReal_mk 1 938.272 1000 1 0⟩

/-- C6. Over the reals, `fLVdedx` returns the most probable energy loss of the specification:
with `b2`, `g2`, `X` and `δ_eff` as in the mean model and
`xi = (K/2) (Z_eff/A_eff) z²/b2 (ρ t_geom)`, the two density corrections are assigned and the
result is `p0 * xi (ln(2 m_e b2 g2) + ln xi - 2 lnI_eff + 0.2 - b2 - δ_eff) / t_geom + p1`. -/
theorem fLVdedx_eq_spec_formula (T : TMath ℝ) (hT : T.IsReal) (z m rigidity p0 p1 t_geom : ℝ) :
    let P := rigidity * z
    let b2 := P ^ 2 / (P ^ 2 + m ^ 2)
    let g2 := 1 / (1 - b2)
    let X := Real.logb 10 (Real.sqrt (b2 * g2))
    let xi := (K / 2) * (Z_eff / A_eff) * z ^ 2 / b2 * (rho_P10 * t_geom)
    ∃ dAr dCH4, delta_Ar T X = some dAr ∧ delta_CH4 T X = some dCH4 ∧
      fLVdedx T z m [rigidity] [p0, p1, t_geom]
        = some (p0 * (xi * (Real.log (2 * kme * b2 * g2) + Real.log xi - 2 * lnI_eff T + 0.2 - b2
            - (0.9 * Z_Ar * dAr + 0.1 * (Z_C + 4 * Z_H) * dCH4) / Z_eff)) / t_geom + p1) := by
  intro P b2 g2 X xi
  refine ⟨_, _, delta_Ar_eq T X, delta_CH4_eq T X, ?_⟩
  rw [fLVdedx_eq]
  simp only [deltapLV, hT.log, hT.sqrt, hT.log10, P, b2, g2, X, xi]
  congr 1
  ring_nf

/-- Witness of C6 at `z = 1`, `m = 938.272`, `rigidity = 1000`, `calib = (1, 0, 1.2)`. -/
theorem fLVdedx_eq_spec_formula_witness :
    TMath.IsReal ⟨Real.log, Real.logb 10, Real.sqrt, fun x y => x ^ y⟩ ∧
    (let P : ℝ := 1000 * 1
     let b2 := P ^ 2 / (P ^ 2 + 938.272 ^ 2)
     let g2 := 1 / (1 - b2)
     let X := Real.logb 10 (Real.sqrt (b2 * g2))
     let xi := (K / 2) * (Z_eff / A_eff) * 1 ^ 2 / b2 * (rho_P10 * 1.2)
     ∃ dAr dCH4,
      delta_Ar ⟨Real.log, Real.logb 10, Real.sqrt, fun x y => x ^ y⟩ X = some dAr ∧
      delta_CH4 ⟨Real.log, Real.logb 10, Real.sqrt, fun x y => x ^ y⟩ X = some dCH4 ∧
      fLVdedx ⟨Real.log, Real.logb 10, Real.sqrt, fun x y => x ^ y⟩ 1 938.272 [1000] [1, 0, 1.2]
        = some (1 * (xi * (Real.log (2 * kme * b2 * g2) + Real.log xi
            - 2 * lnI_eff ⟨Real.log, Real.logb 10, Real.sqrt, fun x y => x ^ y⟩ + 0.2 - b2
            - (0.9 * Z_Ar * dAr + 0.1 * (Z_C + 4 * Z_H) * dCH4) / Z_eff)) / 1.2 + 0)) :=
  ⟨isReal_mk, fLVdedx_eq_spec_formula _ isReal_mk 1 938.272 1000 1 0 1.2⟩

/-! ## The density correction (C7, C9) -/

/-- C7. Over the reals, for each gas component (Ar with `C = 11.948`, `a = 0.19714`,
`x0 = 1.7635`, `x1 = 4.4855`, `k = 2.9618`; CH4 with `C = 9.5243`, `a = 0.09253`, `x0 = 1.6263`,
`x1 = 3.9716`, `k = 3.6257`) and every real `x`, the density correction returns `0` when
`x < x0`, `2 ln(10) x - C + a (x1 - x)^k` when `x0 ≤ x < x1` and `2 ln(10) x - C` when `x1 ≤ x`,
and its result is always assigned. -/
theorem delta_three_regions (T : TMath ℝ) (hT : T.IsReal) (x : ℝ) :
    ((x < 1.7635 → delta_Ar T x = some 0) ∧
      (1.7635 ≤ x → x < 4.4855 → delta_Ar T x
        = some (2 * Real.log 10 * x - 11.948 + 0.19714 * (4.4855 - x) ^ (2.9618 : ℝ))) ∧
      (4.4855 ≤ x → delta_Ar T x = some (2 * Real.log 10 * x - 11.948)) ∧
      (delta_Ar T x).isSome = true) ∧
    ((x < 1.6263 → delta_CH4 T x = some 0) ∧
      (1.6263 ≤ x → x < 3.9716 → delta_CH4 T x
        = some (2 * Real.log 10 * x - 9.5243 + 0.09253 * (3.9716 - x) ^ (3.6257 : ℝ))) ∧
      (3.9716 ≤ x → delta_CH4 T x = some (2 * Real.log 10 * x - 9.5243)) ∧
      (delta_CH4 T x).isSome = true) := by
  refine ⟨⟨fun h => ?_, fun h0 h1 => ?_, fun h => ?_, ?_⟩,
    ⟨fun h => ?_, fun h0 h1 => ?_, fun h => ?_, ?_⟩⟩
  · simp [delta_Ar, x0_Ar, h]
  · simp [delta_Ar, x0_Ar, x1_Ar, not_lt.mpr h0, h0, h1, ln10, hT.log, hT.power, C_Ar, a_Ar, k_Ar]
  · have h0 : (1.7635:ℝ) ≤ x := le_trans (by norm_num) h
    simp [delta_Ar, x0_Ar, x1_Ar, not_lt.mpr h0, not_lt.mpr h, h, ln10, hT.log, C_Ar]
  · simp [delta_Ar_eq]
  · simp [delta_CH4, x0_CH4, h]
  · simp [delta_CH4, x0_CH4, x1_CH4, not_lt.mpr h0, h0, h1, ln10, hT.log, hT.power, C_CH4,
      a_CH4, k_CH4]
  · have h0 : (1.6263:ℝ) ≤ x := le_trans (by norm_num) h
    simp [delta_CH4, x0_CH4, x1_CH4, not_lt.mpr h0, not_lt.mpr h, h, ln10, hT.log, C_CH4]
  · simp [delta_CH4_eq]

/-- Witness of C7 at `x = 2`, which lies in the middle region of both gas components. -/
theorem delta_three_regions_witness :
    TMath.IsReal ⟨Real.log, Real.logb 10, Real.sqrt, fun x y => x ^ y⟩ ∧
    delta_Ar ⟨Real.log, Real.logb 10, Real.sqrt, fun x y => x ^ y⟩ (2 : ℝ)
      = some (2 * Real.log 10 * 2 - 11.948 + 0.19714 * (4.4855 - 2) ^ (2.9618 : ℝ)) ∧
    delta_CH4 ⟨Real.log, Real.logb 10, Real.sqrt, fun x y => x ^ y⟩ (2 : ℝ)
      = some (2 * Real.log 10 * 2 - 9.5243 + 0.09253 * (3.9716 - 2) ^ (3.6257 : ℝ)) :=
  ⟨isReal_mk,
    (delta_three_regions _ isReal_mk 2).1.2.1 (by norm_num) (by norm_num),
    (delta_three_regions _ isReal_mk 2).2.2.1 (by norm_num) (by norm_num)⟩

/-- Continuity of the three-branch correction at the upper boundary `x1`, for a positive
exponent `k` and `x0 < x1`: the term `a (x1 - x)^k` tends to `0` at `x1`. -/
theorem deltaValue_continuousAt_x1 (T : TMath ℝ) (hT : T.IsReal) (C a x0 x1 k : ℝ)
    (h01 : x0 < x1) (hk : 0 < k) : ContinuousAt (deltaValue T C a x0 x1 k) x1 := by
  have hg : ContinuousAt (fun x : ℝ => 2 * Real.log 10 * x - C + a * (max (x1 - x) 0) ^ k) x1 := by
    have h1 : Continuous (fun x : ℝ => max (x1 - x) 0) := by fun_prop
    have h2 : Continuous (fun x : ℝ => (max (x1 - x) 0) ^ k) :=
      (Real.continuous_rpow_const hk.le).comp h1
    have h3 : Continuous (fun x : ℝ => 2 * Real.log 10 * x - C + a * (max (x1 - x) 0) ^ k) := by
      fun_prop
    exact h3.continuousAt
  refine hg.congr ?_
  have hU : ∀ᶠ x in nhds x1, x0 < x := lt_mem_nhds h01
  filter_upwards [hU] with x hx
  unfold deltaValue
  rw [if_neg (not_lt.mpr hx.le), ln10, hT.log, hT.power]
  by_cases h1 : x < x1
  · rw [if_pos h1, max_eq_left (by linarith)]
  · rw [if_neg h1, max_eq_right (by linarith), Real.zero_rpow hk.ne', mul_zero, add_zero]

/-- C9. Over the reals, the density correction is continuous at the upper boundary `x1` for both
gas components: `delta_Ar` always returns a value, and the value is a function of `x` that is
continuous at `x1_Ar = 4.4855`; likewise `delta_CH4` at `x1_CH4 = 3.9716`. -/
theorem delta_continuousAt_x1 (T : TMath ℝ) (hT : T.IsReal) :
    (∃ f : ℝ → ℝ, (∀ x, delta_Ar T x = some (f x)) ∧ ContinuousAt f 4.4855) ∧
    (∃ f : ℝ → ℝ, (∀ x, delta_CH4 T x = some (f x)) ∧ ContinuousAt f 3.9716) := by
  refine ⟨⟨_, delta_Ar_eq T, ?_⟩, ⟨_, delta_CH4_eq T, ?_⟩⟩
  · have h := deltaValue_continuousAt_x1 T hT C_Ar a_Ar x0_Ar x1_Ar k_Ar
      (by norm_num [x0_Ar, x1_Ar]) (by norm_num [k_Ar])
    simpa [x1_Ar] using h
  · have h := deltaValue_continuousAt_x1 T hT C_CH4 a_CH4 x0_CH4 x1_CH4 k_CH4
      (by norm_num [x0_CH4, x1_CH4]) (by norm_num [k_CH4])
    simpa [x1_CH4] using h

/-- Witness of C9 for the real `TMath` functions. -/
theorem delta_continuousAt_x1_witness :
    TMath.IsReal ⟨Real.log, Real.logb 10, Real.sqrt, fun x y => x ^ y⟩ ∧
    (∃ f : ℝ → ℝ, (∀ x, delta_Ar ⟨Real.log, Real.logb 10, Real.sqrt, fun x y => x ^ y⟩ x
        = some (f x)) ∧ ContinuousAt f 4.4855) ∧
    (∃ f : ℝ → ℝ, (∀ x, delta_CH4 ⟨Real.log, Real.logb 10, Real.sqrt, fun x y => x ^ y⟩ x
        = some (f x)) ∧ ContinuousAt f 3.9716) :=
  ⟨isReal_mk, delta_continuousAt_x1 _ isReal_mk⟩

/-! ## Numerical bounds on logarithms and powers -/

/-- `k * t < log x` from an upper bound `U` of `exp t` with `U ^ k < x`. -/
theorem lt_log_of_pow_lt {x t U : ℝ} {k : ℕ} (hU : Real.exp t ≤ U) (hx : U ^ k < x) :
    k * t < Real.log x := by
  have h1 : Real.exp (k * t) ≤ U ^ k := by
    rw [Real.exp_nat_mul]
    exact pow_le_pow_left₀ (Real.exp_pos t).le hU k
  have hx0 : 0 < x := lt_of_lt_of_le (Real.exp_pos _) (h1.trans hx.le)
  exact (Real.lt_log_iff_exp_lt hx0).mpr (lt_of_le_of_lt h1 hx)

/-- `log x < k * t` from a lower bound `S` of `exp t` with `x < S ^ k`. -/
theorem log_lt_of_lt_pow {x t S : ℝ} {k : ℕ} (hS0 : 0 ≤ S) (hS : S ≤ Real.exp t) (hx0 : 0 < x)
    (hx : x < S ^ k) : Real.log x < k * t := by
  have h1 : S ^ k ≤ Real.exp (k * t) := by
    rw [Real.exp_nat_mul]
    exact pow_le_pow_left₀ hS0 hS k
  exact (Real.log_lt_iff_lt_exp hx0).mpr (lt_of_lt_of_le hx h1)

/-- Upper bound of a logarithm: `log x < hi` when `x` is below the `k`-th power of the `n`-term
exponential series at `hi / k`. -/
theorem log_lt_of_series {x : ℝ} (hi : ℝ) (k n : ℕ) (hk : 0 < k) (h0 : 0 ≤ hi) (hx0 : 0 < x)
    (hx : x < (∑ i ∈ Finset.range n, (hi / k) ^ i / (Nat.factorial i : ℝ)) ^ k) :
    Real.log x < hi := by
  have hk' : (k : ℝ) ≠ 0 := Nat.cast_ne_zero.mpr hk.ne'
  have ht : 0 ≤ hi / k := by positivity
  have hS := Real.sum_le_exp_of_nonneg ht n
  have hS0 : 0 ≤ ∑ i ∈ Finset.range n, (hi / k) ^ i / (Nat.factorial i : ℝ) :=
    Finset.sum_nonneg (fun i _ => by positivity)
  have h := log_lt_of_lt_pow hS0 hS hx0 hx
  rwa [mul_div_cancel₀ _ hk'] at h

/-- Lower bound of a logarithm: `lo < log x` when the `k`-th power of the `n`-term exponential
series at `lo / k`, with its remainder, is below `x`. -/
theorem lt_log_of_series {x : ℝ} (lo : ℝ) (k n : ℕ) (hk : 0 < k) (hn : 0 < n) (h0 : 0 ≤ lo)
    (h1 : lo ≤ k)
    (hx : (∑ i ∈ Finset.range n, (lo / k) ^ i / (Nat.factorial i : ℝ)
        + (lo / k) ^ n * ((n : ℝ) + 1) / ((Nat.factorial n : ℝ) * n)) ^ k < x) :
    lo < Real.log x := by
  have hk0 : (0 : ℝ) < k := Nat.cast_pos.mpr hk
  have ht : 0 ≤ lo / k := by positivity
  have ht1 : lo / k ≤ 1 := by rw [div_le_one hk0]; exact h1
  have hU := Real.exp_bound' ht ht1 hn
  have h := lt_log_of_pow_lt (k := k) hU (by simpa using hx)
  rwa [mul_div_cancel₀ _ hk0.ne'] at h

/-- Upper bound of the logarithm of a number below `1`. -/
theorem log_lt_neg_of_series {x : ℝ} (lo : ℝ) (k n : ℕ) (hk : 0 < k) (hn : 0 < n) (h0 : 0 ≤ lo)
    (h1 : lo ≤ k)
    (hx : (∑ i ∈ Finset.range n, (lo / k) ^ i / (Nat.factorial i : ℝ)
        + (lo / k) ^ n * ((n : ℝ) + 1) / ((Nat.factorial n : ℝ) * n)) ^ k < x⁻¹) :
    Real.log x < -lo := by
  have h := lt_log_of_series lo k n hk hn h0 h1 hx
  rw [Real.log_inv] at h
  linarith

/-- Lower bound of the logarithm of a number below `1`. -/
theorem neg_lt_log_of_series {x : ℝ} (hi : ℝ) (k n : ℕ) (hk : 0 < k) (h0 : 0 ≤ hi) (hx0 : 0 < x)
    (hx : x⁻¹ < (∑ i ∈ Finset.range n, (hi / k) ^ i / (Nat.factorial i : ℝ)) ^ k) :
    -hi < Real.log x := by
  have h := log_lt_of_series hi k n hk h0 (inv_pos.mpr hx0) hx
  rw [Real.log_inv] at h
  linarith

/-- Upper bound of `ln 10 ≈ 2.30258509`. -/
theorem log_ten_lt : Real.log 10 < 2.3025852 :=
  log_lt_of_series 2.3025852 16 9 (by norm_num) (by norm_num) (by norm_num)
    (by norm_num [Finset.sum_range_succ, Nat.factorial])

/-- Lower bound of `ln 10 ≈ 2.30258509`. -/
theorem lt_log_ten : 2.3025850 < Real.log 10 :=
  lt_log_of_series 2.3025850 16 9 (by norm_num) (by norm_num) (by norm_num) (by norm_num)
    (by norm_num [Finset.sum_range_succ, Nat.factorial])

/-- Bounds of the effective logarithmic excitation energy, `lnI_eff ≈ -8.66662`. -/
theorem lnI_eff_bounds (T : TMath ℝ) (hT : T.IsReal) :
    -8.667 < lnI_eff T ∧ lnI_eff T < -8.666 := by
  have hAr1 : Real.log (1 / I_Ar) < 8.5791 :=
    log_lt_of_series 8.5791 16 12 (by norm_num) (by norm_num) (by norm_num [I_Ar])
      (by norm_num [Finset.sum_range_succ, Nat.factorial, I_Ar])
  have hAr2 : 8.5790 < Real.log (1 / I_Ar) :=
    lt_log_of_series 8.5790 16 12 (by norm_num) (by norm_num) (by norm_num) (by norm_num)
      (by norm_num [Finset.sum_range_succ, Nat.factorial, I_Ar])
  have hC1 : Real.log (1 / I_CH4) < 10.0851 :=
    log_lt_of_series 10.0851 16 12 (by norm_num) (by norm_num) (by norm_num [I_CH4])
      (by norm_num [Finset.sum_range_succ, Nat.factorial, I_CH4])
  have hC2 : 10.0850 < Real.log (1 / I_CH4) :=
    lt_log_of_series 10.0850 16 12 (by norm_num) (by norm_num) (by norm_num) (by norm_num)
      (by norm_num [Finset.sum_range_succ, Nat.factorial, I_CH4])
  rw [one_div, Real.log_inv] at hAr1 hAr2 hC1 hC2
  unfold lnI_eff
  rw [hT.log, hT.log]
  norm_num [Z_Ar, Z_C, Z_H, Z_eff]
  constructor
  · rw [lt_div_iff₀ (by norm_num)]; linarith
  · rw [div_lt_iff₀ (by norm_num)]; linarith

/-- `(a/b)^(p/q) < c/d` from the comparison `a^p * d^q < c^q * b^p` of natural numbers. -/
theorem rpow_lt_of_nat_lt (a b c d p q : ℕ) (hb : 0 < b) (hd : 0 < d) (hq : 0 < q)
    (h : a ^ p * d ^ q < c ^ q * b ^ p) :
    ((a : ℝ) / b) ^ ((p : ℝ) / q) < (c : ℝ) / d := by
  have hb' : (0 : ℝ) < b := Nat.cast_pos.mpr hb
  have hd' : (0 : ℝ) < d := Nat.cast_pos.mpr hd
  have hq' : (q : ℝ) ≠ 0 := Nat.cast_ne_zero.mpr hq.ne'
  have hx : (0 : ℝ) ≤ (a : ℝ) / b := by positivity
  have hR : (0 : ℝ) ≤ (c : ℝ) / d := by positivity
  have hpow : ((a : ℝ) / b) ^ p < ((c : ℝ) / d) ^ q := by
    rw [div_pow, div_pow, div_lt_div_iff₀ (pow_pos hb' p) (pow_pos hd' q)]
    exact_mod_cast h
  by_contra hcon
  have hle : (c : ℝ) / d ≤ ((a : ℝ) / b) ^ ((p : ℝ) / q) := not_lt.mp hcon
  have h2 : ((c : ℝ) / d) ^ q ≤ (((a : ℝ) / b) ^ ((p : ℝ) / q)) ^ q := pow_le_pow_left₀ hR hle q
  rw [← Real.rpow_natCast (((a : ℝ) / b) ^ ((p : ℝ) / q)) q, ← Real.rpow_mul hx,
    div_mul_cancel₀ _ hq', Real.rpow_natCast] at h2
  exact absurd hpow (not_lt.mpr h2)

/-- `c/d < (a/b)^(p/q)` from the comparison `c^q * b^p < a^p * d^q` of natural numbers. -/
theorem lt_rpow_of_nat_lt (a b c d p q : ℕ) (hb : 0 < b) (hd : 0 < d) (hq : 0 < q)
    (h : c ^ q * b ^ p < a ^ p * d ^ q) :
    (c : ℝ) / d < ((a : ℝ) / b) ^ ((p : ℝ) / q) := by
  have hb' : (0 : ℝ) < b := Nat.cast_pos.mpr hb
  have hd' : (0 : ℝ) < d := Nat.cast_pos.mpr hd
  have hq' : (q : ℝ) ≠ 0 := Nat.cast_ne_zero.mpr hq.ne'
  have hx : (0 : ℝ) ≤ (a : ℝ) / b := by positivity
  have hpow : ((c : ℝ) / d) ^ q < ((a : ℝ) / b) ^ p := by
    rw [div_pow, div_pow, div_lt_div_iff₀ (pow_pos hd' q) (pow_pos hb' p)]
    exact_mod_cast h
  by_contra hcon
  have hle : ((a : ℝ) / b) ^ ((p : ℝ) / q) ≤ (c : ℝ) / d := not_lt.mp hcon
  have h2 : (((a : ℝ) / b) ^ ((p : ℝ) / q)) ^ q ≤ ((c : ℝ) / d) ^ q :=
    pow_le_pow_left₀ (Real.rpow_nonneg hx _) hle q
  rw [← Real.rpow_natCast (((a : ℝ) / b) ^ ((p : ℝ) / q)) q, ← Real.rpow_mul hx,
    div_mul_cancel₀ _ hq', Real.rpow_natCast] at h2
  exact absurd hpow (not_lt.mpr h2)

set_option exponentiation.threshold 100000 in
/-- Bounds of `(x1_Ar - x0_Ar)^k_Ar = 2.722^2.9618 ≈ 19.411167`. -/
theorem rpow_Ar_bounds :
    19.4111 < ((4.4855 : ℝ) - 1.7635) ^ (2.9618 : ℝ) ∧
      ((4.4855 : ℝ) - 1.7635) ^ (2.9618 : ℝ) < 19.4113 := by
  have h1 := lt_rpow_of_nat_lt 2722 1000 194111 10000 14809 5000 (by norm_num) (by norm_num)
    (by norm_num) (by decide)
  have h2 := rpow_lt_of_nat_lt 2722 1000 194113 10000 14809 5000 (by norm_num) (by norm_num)
    (by norm_num) (by decide)
  have e1 : ((4.4855 : ℝ) - 1.7635) = ((2722 : ℕ) : ℝ) / ((1000 : ℕ) : ℝ) := by norm_num
  have e2 : (2.9618 : ℝ) = ((14809 : ℕ) : ℝ) / ((5000 : ℕ) : ℝ) := by norm_num
  have e3 : (19.4111 : ℝ) = ((194111 : ℕ) : ℝ) / ((10000 : ℕ) : ℝ) := by norm_num
  have e4 : (19.4113 : ℝ) = ((194113 : ℕ) : ℝ) / ((10000 : ℕ) : ℝ) := by norm_num
  rw [e1, e2, e3, e4]
  exact ⟨h1, h2⟩

set_option exponentiation.threshold 100000 in
/-- Bounds of `(x1_CH4 - x0_CH4)^k_CH4 = 2.3453^3.6257 ≈ 21.990158`. -/
theorem rpow_CH4_bounds :
    21.9901 < ((3.9716 : ℝ) - 1.6263) ^ (3.6257 : ℝ) ∧
      ((3.9716 : ℝ) - 1.6263) ^ (3.6257 : ℝ) < 21.9902 := by
  have h1 := lt_rpow_of_nat_lt 23453 10000 219901 10000 36257 10000 (by norm_num) (by norm_num)
    (by norm_num) (by decide)
  have h2 := rpow_lt_of_nat_lt 23453 10000 219902 10000 36257 10000 (by norm_num) (by norm_num)
    (by norm_num) (by decide)
  have e1 : ((3.9716 : ℝ) - 1.6263) = ((23453 : ℕ) : ℝ) / ((10000 : ℕ) : ℝ) := by norm_num
  have e2 : (3.6257 : ℝ) = ((36257 : ℕ) : ℝ) / ((10000 : ℕ) : ℝ) := by norm_num
  have e3 : (21.9901 : ℝ) = ((219901 : ℕ) : ℝ) / ((10000 : ℕ) : ℝ) := by norm_num
  have e4 : (21.9902 : ℝ) = ((219902 : ℕ) : ℝ) / ((10000 : ℕ) : ℝ) := by norm_num
  rw [e1, e2, e3, e4]
  exact ⟨h1, h2⟩

/-! ## The density correction at the lower boundary (C8) -/

/-- The value of the middle-branch formula of Ar at `x0_Ar`, about `-6.5e-5`. -/
theorem region2_Ar_at_x0 :
    -1e-4 < 2 * Real.log 10 * 1.7635 - 11.948 + 0.19714 * (4.4855 - 1.7635) ^ (2.9618 : ℝ) ∧
    2 * Real.log 10 * 1.7635 - 11.948 + 0.19714 * (4.4855 - 1.7635) ^ (2.9618 : ℝ) < 0 := by
  have h10a := lt_log_ten
  have h10b := log_ten_lt
  have hAr := rpow_Ar_bounds
  constructor
  · norm_num at hAr ⊢; linarith [hAr.1]
  · norm_num at hAr ⊢; linarith [hAr.2]

/-- The value of the middle-branch formula of CH4 at `x0_CH4`, about `-1.62e-4`. -/
theorem region2_CH4_at_x0 :
    -2e-4 < 2 * Real.log 10 * 1.6263 - 9.5243 + 0.09253 * (3.9716 - 1.6263) ^ (3.6257 : ℝ) ∧
    2 * Real.log 10 * 1.6263 - 9.5243 + 0.09253 * (3.9716 - 1.6263) ^ (3.6257 : ℝ) < 0 := by
  have h10a := lt_log_ten
  have h10b := log_ten_lt
  have hCH4 := rpow_CH4_bounds
  constructor
  · norm_num at hCH4 ⊢; linarith [hCH4.1]
  · norm_num at hCH4 ⊢; linarith [hCH4.2]

/-- At `x0` the source takes the middle branch (Ar). -/
theorem delta_Ar_x0 (T : TMath ℝ) (hT : T.IsReal) :
    delta_Ar T 1.7635
      = some (2 * Real.log 10 * 1.7635 - 11.948 + 0.19714 * (4.4855 - 1.7635) ^ (2.9618 : ℝ)) := by
  simp [delta_Ar, x0_Ar, x1_Ar, ln10, hT.log, hT.power, C_Ar, a_Ar, k_Ar]
  norm_num

/-- At `x0` the source takes the middle branch (CH4). -/
theorem delta_CH4_x0 (T : TMath ℝ) (hT : T.IsReal) :
    delta_CH4 T 1.6263
      = some (2 * Real.log 10 * 1.6263 - 9.5243 + 0.09253 * (3.9716 - 1.6263) ^ (3.6257 : ℝ)) := by
  simp [delta_CH4, x0_CH4, x1_CH4, ln10, hT.log, hT.power, C_CH4, a_CH4, k_CH4]
  norm_num

/-- C8, counterexample. Over the reals the density correction is not `0` at the lower boundary:
`delta_Ar(1.7635)` and `delta_CH4(1.6263)` are the values of the middle branch, and both are
nonzero. -/
theorem delta_x0_ne_zero :
    delta_Ar ⟨Real.log, Real.logb 10, Real.sqrt, fun x y => x ^ y⟩ (1.7635 : ℝ) ≠ some 0 ∧
    delta_CH4 ⟨Real.log, Real.logb 10, Real.sqrt, fun x y => x ^ y⟩ (1.6263 : ℝ) ≠ some 0 := by
  constructor
  · rw [delta_Ar_x0 _ isReal_mk]
    intro h
    have := Option.some.inj h
    linarith [region2_Ar_at_x0.2]
  · rw [delta_CH4_x0 _ isReal_mk]
    intro h
    have := Option.some.inj h
    linarith [region2_CH4_at_x0.2]

/-- C8, amended. At the lower boundary `x0` the source takes the middle branch:
`delta_Ar(x0_Ar)` is `2 ln(10) x0 - C + a (x1 - x0)^k` for the Ar parameters, a value strictly
between `-1e-4` and `0`, and `delta_CH4(x0_CH4)` is the corresponding value for CH4, strictly
between `-2e-4` and `0`. The correction is continuous at `x0` only up to a jump smaller than
`2e-4`. -/
theorem delta_at_x0 (T : TMath ℝ) (hT : T.IsReal) :
    (∃ d : ℝ, delta_Ar T 1.7635 = some d ∧
      d = 2 * Real.log 10 * 1.7635 - 11.948 + 0.19714 * (4.4855 - 1.7635) ^ (2.9618 : ℝ) ∧
      -1e-4 < d ∧ d < 0) ∧
    (∃ d : ℝ, delta_CH4 T 1.6263 = some d ∧
      d = 2 * Real.log 10 * 1.6263 - 9.5243 + 0.09253 * (3.9716 - 1.6263) ^ (3.6257 : ℝ) ∧
      -2e-4 < d ∧ d < 0) :=
  ⟨⟨_, delta_Ar_x0 T hT, rfl, region2_Ar_at_x0.1, region2_Ar_at_x0.2⟩,
    ⟨_, delta_CH4_x0 T hT, rfl, region2_CH4_at_x0.1, region2_CH4_at_x0.2⟩⟩

/-- Witness of C8 (amended) for the real `TMath` functions. -/
theorem delta_at_x0_witness :
    TMath.IsReal ⟨Real.log, Real.logb 10, Real.sqrt, fun x y => x ^ y⟩ ∧
    (∃ d : ℝ, delta_Ar ⟨Real.log, Real.logb 10, Real.sqrt, fun x y => x ^ y⟩ 1.7635 = some d ∧
      d = 2 * Real.log 10 * 1.7635 - 11.948 + 0.19714 * (4.4855 - 1.7635) ^ (2.9618 : ℝ) ∧
      -1e-4 < d ∧ d < 0) ∧
    (∃ d : ℝ, delta_CH4 ⟨Real.log, Real.logb 10, Real.sqrt, fun x y => x ^ y⟩ 1.6263 = some d ∧
      d = 2 * Real.log 10 * 1.6263 - 9.5243 + 0.09253 * (3.9716 - 1.6263) ^ (3.6257 : ℝ) ∧
      -2e-4 < d ∧ d < 0) :=
  ⟨isReal_mk, delta_at_x0 _ isReal_mk⟩

/-! ## The mean energy loss over the reals -/

/-- For a positive mass and a positive momentum, `b2*g2` of the source is `(mom/m)²`. -/
theorem b2_mul_g2 (m mom : ℝ) (hm : 0 < m) :
    mom*mom/(mom*mom+m*m) * (1/(1 - mom*mom/(mom*mom+m*m))) = (mom/m)^2 := by
  have h1 : mom*mom+m*m ≠ 0 := by nlinarith [mul_self_nonneg mom, mul_pos hm hm]
  have h2 : 1 - mom*mom/(mom*mom+m*m) = m*m/(mom*mom+m*m) := by field_simp
  rw [h2]
  field_simp
  ring

/-- For a positive mass, `g2` of the source is `1 + (mom/m)²`. -/
theorem g2_eq (m mom : ℝ) (hm : 0 < m) :
    1/(1 - mom*mom/(mom*mom+m*m)) = 1 + (mom/m)^2 := by
  have h1 : mom*mom+m*m ≠ 0 := by nlinarith [mul_self_nonneg mom, mul_pos hm hm]
  have h2 : 1 - mom*mom/(mom*mom+m*m) = m*m/(mom*mom+m*m) := by field_simp
  rw [h2]
  field_simp
  ring

/-- The three-branch correction vanishes below `x0`. -/
theorem deltaValue_of_lt (T : TMath ℝ) (C a x0 x1 k x : ℝ) (h : x < x0) :
    deltaValue T C a x0 x1 k x = 0 := by
  simp [deltaValue, h]

/-- In the region `mom ≤ 10 m` (where `log10(βγ) ≤ 1` lies below both `x0`), the density
correction vanishes and `dedx` is an elementary function of `mom/m` and `m`. -/
theorem dedxBB_of_le (T : TMath ℝ) (hT : T.IsReal) (z m mom : ℝ) (hm : 0 < m) (hmom : 0 < mom)
    (hle : mom ≤ 10 * m) :
    dedxBB T z m mom = K*rho_P10*z*z*Z_eff/A_eff/(mom*mom/(mom*mom+m*m))
      * (0.5 * Real.log (2*kme*(mom/m)^2
            * (2*kme*(mom/m)^2/(1+2*Real.sqrt (1+(mom/m)^2)*kme/m+(kme/m)^2)))
          - lnI_eff T - mom*mom/(mom*mom+m*m)) := by
  have hq : 0 < mom / m := div_pos hmom hm
  have hX : Real.logb 10 (Real.sqrt ((mom/m)^2)) ≤ 1 := by
    rw [Real.sqrt_sq hq.le]
    have h10 : mom / m ≤ 10 := by rw [div_le_iff₀ hm]; exact hle
    calc Real.logb 10 (mom / m) ≤ Real.logb 10 10 :=
          Real.logb_le_logb_of_le (by norm_num) hq h10
      _ = 1 := Real.logb_self_eq_one (by norm_num)
  unfold dedxBB
  simp only [hT.log, hT.sqrt, hT.log10, hT.power_two]
  rw [mul_assoc (2*kme) _ (1/(1 - mom*mom/(mom*mom+m*m))), b2_mul_g2 m mom hm, g2_eq m mom hm,
    deltaValue_of_lt T _ _ _ _ _ _ (lt_of_le_of_lt hX (by norm_num [x0_Ar])),
    deltaValue_of_lt T _ _ _ _ _ _ (lt_of_le_of_lt hX (by norm_num [x0_CH4]))]
  simp

/-- Over the reals, for a positive mass and a positive momentum, `dedx` as a function of
`mom/m`, `m` and the two density corrections at `log10 (mom/m)`. -/
theorem dedxBB_eq_real (T : TMath ℝ) (hT : T.IsReal) (z m mom : ℝ) (hm : 0 < m)
    (hmom : 0 < mom) :
    dedxBB T z m mom = K*rho_P10*z*z*Z_eff/A_eff/(mom*mom/(mom*mom+m*m))
      * (0.5 * Real.log (2*kme*(mom/m)^2
            * (2*kme*(mom/m)^2/(1+2*Real.sqrt (1+(mom/m)^2)*kme/m+(kme/m)^2)))
          - lnI_eff T - mom*mom/(mom*mom+m*m)
          - 0.5 * ((0.9*Z_Ar*deltaValue T C_Ar a_Ar x0_Ar x1_Ar k_Ar (Real.logb 10 (mom/m))
              + 0.1*(Z_C+Z_H*4)
                * deltaValue T C_CH4 a_CH4 x0_CH4 x1_CH4 k_CH4 (Real.logb 10 (mom/m)))/Z_eff)) := by
  have hq : 0 < mom / m := div_pos hmom hm
  unfold dedxBB
  simp only [hT.log, hT.sqrt, hT.log10, hT.power_two]
  rw [mul_assoc (2*kme) _ (1/(1 - mom*mom/(mom*mom+m*m))), b2_mul_g2 m mom hm, g2_eq m mom hm,
    Real.sqrt_sq hq.le]

/-- Bounds of `dedx` for unit charge in the region `mom ≤ 10 m`, from bounds `g_lo`, `g_hi` of
`γ = √(1 + (mom/m)²)` and bounds `Llo`, `Lhi` of the logarithm. -/
theorem dedxBB_bounds (T : TMath ℝ) (hT : T.IsReal) (m mom g_lo g_hi Llo Lhi : ℝ)
    (hm : 0 < m) (hmom : 0 < mom) (hle : mom ≤ 10 * m)
    (hg1 : 0 ≤ g_lo) (hg2 : g_lo ^ 2 ≤ 1 + (mom/m)^2)
    (hg3 : 0 ≤ g_hi) (hg4 : 1 + (mom/m)^2 ≤ g_hi ^ 2)
    (hlo : Llo < Real.log (2*kme*(mom/m)^2 * (2*kme*(mom/m)^2/(1+2*g_hi*kme/m+(kme/m)^2))))
    (hhi : Real.log (2*kme*(mom/m)^2 * (2*kme*(mom/m)^2/(1+2*g_lo*kme/m+(kme/m)^2))) < Lhi) :
    K*rho_P10*Z_eff/A_eff/(mom*mom/(mom*mom+m*m))
        * (0.5 * Llo - lnI_eff T - mom*mom/(mom*mom+m*m)) < dedxBB T 1 m mom ∧
    dedxBB T 1 m mom < K*rho_P10*Z_eff/A_eff/(mom*mom/(mom*mom+m*m))
        * (0.5 * Lhi - lnI_eff T - mom*mom/(mom*mom+m*m)) := by
  have hkme : (0 : ℝ) < kme := by norm_num [kme]
  have hq : 0 < mom / m := div_pos hmom hm
  have hN : 0 < 2*kme*(mom/m)^2 := by positivity
  have hr : 0 < kme / m := div_pos hkme hm
  have hsq_lo : g_lo ≤ Real.sqrt (1 + (mom/m)^2) := Real.le_sqrt_of_sq_le hg2
  have hsq_hi : Real.sqrt (1 + (mom/m)^2) ≤ g_hi := (Real.sqrt_le_left hg3).mpr hg4
  have hD_lo : 1+2*g_lo*kme/m+(kme/m)^2 ≤ 1+2*Real.sqrt (1+(mom/m)^2)*kme/m+(kme/m)^2 := by
    have : 2*g_lo*kme/m ≤ 2*Real.sqrt (1+(mom/m)^2)*kme/m := by gcongr
    linarith
  have hD_hi : 1+2*Real.sqrt (1+(mom/m)^2)*kme/m+(kme/m)^2 ≤ 1+2*g_hi*kme/m+(kme/m)^2 := by
    have : 2*Real.sqrt (1+(mom/m)^2)*kme/m ≤ 2*g_hi*kme/m := by gcongr
    linarith
  have hD_lo0 : 0 < 1+2*g_lo*kme/m+(kme/m)^2 := by positivity
  have hD0 : 0 < 1+2*Real.sqrt (1+(mom/m)^2)*kme/m+(kme/m)^2 := by positivity
  have hA1 : 2*kme*(mom/m)^2 * (2*kme*(mom/m)^2/(1+2*g_hi*kme/m+(kme/m)^2))
      ≤ 2*kme*(mom/m)^2 * (2*kme*(mom/m)^2/(1+2*Real.sqrt (1+(mom/m)^2)*kme/m+(kme/m)^2)) := by
    gcongr
  have hA2 : 2*kme*(mom/m)^2 * (2*kme*(mom/m)^2/(1+2*Real.sqrt (1+(mom/m)^2)*kme/m+(kme/m)^2))
      ≤ 2*kme*(mom/m)^2 * (2*kme*(mom/m)^2/(1+2*g_lo*kme/m+(kme/m)^2)) := by
    gcongr
  have hA_lo0 : 0 < 2*kme*(mom/m)^2 * (2*kme*(mom/m)^2/(1+2*g_hi*kme/m+(kme/m)^2)) := by
    have : 0 < 1+2*g_hi*kme/m+(kme/m)^2 := by positivity
    positivity
  have hA0 : 0 < 2*kme*(mom/m)^2
      * (2*kme*(mom/m)^2/(1+2*Real.sqrt (1+(mom/m)^2)*kme/m+(kme/m)^2)) := by positivity
  have hL1 := Real.log_le_log hA_lo0 hA1
  have hL2 := Real.log_le_log hA0 hA2
  have hpre : 0 < K*rho_P10*Z_eff/A_eff/(mom*mom/(mom*mom+m*m)) := by
    have h1 : 0 < mom*mom/(mom*mom+m*m) := by positivity
    have h2 : (0 : ℝ) < K*rho_P10*Z_eff/A_eff := by
      norm_num [K, rho_P10, Z_eff, A_eff, Z_Ar, Z_C, Z_H, A_Ar, A_C, A_H]
    positivity
  rw [dedxBB_of_le T hT 1 m mom hm hmom hle]
  have e : K*rho_P10*1*1*Z_eff/A_eff/(mom*mom/(mom*mom+m*m))
      = K*rho_P10*Z_eff/A_eff/(mom*mom/(mom*mom+m*m)) := by ring
  rw [e]
  constructor
  · apply mul_lt_mul_of_pos_left _ hpre
    linarith
  · apply mul_lt_mul_of_pos_left _ hpre
    linarith

/-! ## Values of the mean energy loss for unit charge and momentum `1000` -/

/-- Lower bound of `dedx` for unit charge, momentum `1000` and mass `0.1`, the lower end of the
search bracket (the value is about `0.00367232`); here `log10(βγ) = 4`. -/
theorem dedxBB_at_low (T : TMath ℝ) (hT : T.IsReal) : 0.00365 < dedxBB T 1 0.1 1000 := by
  have hX : Real.logb 10 ((1000 : ℝ) / 0.1) = 4 := by
    have h10 : Real.log 10 ≠ 0 := by have := lt_log_ten; linarith
    have e : ((1000 : ℝ) / 0.1) = 10 ^ 4 := by norm_num
    rw [e, Real.logb, Real.log_pow]
    field_simp
  have hAr : deltaValue T C_Ar a_Ar x0_Ar x1_Ar k_Ar 4 ≤ 2 * 2.3025852 * 4 - 11.948 + 0.19714 := by
    have hp : ((4.4855 : ℝ) - 4) ^ (2.9618 : ℝ) ≤ 1 :=
      Real.rpow_le_one (by norm_num) (by norm_num) (by norm_num)
    have h10 := log_ten_lt
    simp only [deltaValue, ln10, hT.log, hT.power, x0_Ar, x1_Ar, C_Ar, a_Ar, k_Ar]
    rw [if_neg (by norm_num), if_pos (by norm_num)]
    linarith
  have hCH4 : deltaValue T C_CH4 a_CH4 x0_CH4 x1_CH4 k_CH4 4 ≤ 2 * 2.3025852 * 4 - 9.5243 := by
    have h10 := log_ten_lt
    simp only [deltaValue, ln10, hT.log, x0_CH4, x1_CH4, C_CH4]
    rw [if_neg (by norm_num), if_neg (by norm_num)]
    linarith
  have hg : Real.sqrt (1 + ((1000 : ℝ) / 0.1) ^ 2) ≤ 10000.0001 :=
    (Real.sqrt_le_left (by norm_num)).mpr (by norm_num)
  have hA : 2*kme*((1000 : ℝ)/0.1)^2 * (2*kme*((1000 : ℝ)/0.1)^2
        /(1+2*10000.0001*kme/0.1+(kme/0.1)^2))
      ≤ 2*kme*((1000 : ℝ)/0.1)^2 * (2*kme*((1000 : ℝ)/0.1)^2
        /(1+2*Real.sqrt (1 + ((1000 : ℝ) / 0.1) ^ 2)*kme/0.1+(kme/0.1)^2)) := by
    have hkme : (0 : ℝ) < kme := by norm_num [kme]
    have h1 : 2*Real.sqrt (1 + ((1000 : ℝ) / 0.1) ^ 2)*kme/0.1 ≤ 2*10000.0001*kme/0.1 := by
      gcongr
    have h2 : 0 < 1+2*Real.sqrt (1 + ((1000 : ℝ) / 0.1) ^ 2)*kme/0.1+(kme/0.1)^2 := by positivity
    gcongr
  have hlog : (25.349 : ℝ) < Real.log (2*kme*((1000 : ℝ)/0.1)^2 * (2*kme*((1000 : ℝ)/0.1)^2
        /(1+2*10000.0001*kme/0.1+(kme/0.1)^2))) :=
    lt_log_of_series 25.349 32 12 (by norm_num) (by norm_num) (by norm_num) (by norm_num)
      (by norm_num [Finset.sum_range_succ, Nat.factorial, kme])
  have hL := Real.log_le_log (by norm_num [kme]) hA
  have hI := lnI_eff_bounds T hT
  rw [dedxBB_eq_real T hT 1 0.1 1000 (by norm_num) (by norm_num), hX]
  have hpre : (0.0002157 : ℝ) < K*rho_P10*1*1*Z_eff/A_eff/(1000*1000/(1000*1000+0.1*0.1)) := by
    norm_num [K, rho_P10, Z_eff, A_eff, Z_Ar, Z_C, Z_H, A_Ar, A_C, A_H]
  have hb : (1000 : ℝ)*1000/(1000*1000+0.1*0.1) ≤ 1 := by norm_num
  have hbr : (16.94 : ℝ) < 0.5 * Real.log (2*kme*((1000 : ℝ)/0.1)^2 * (2*kme*((1000 : ℝ)/0.1)^2
        /(1+2*Real.sqrt (1 + ((1000 : ℝ) / 0.1) ^ 2)*kme/0.1+(kme/0.1)^2)))
      - lnI_eff T - 1000*1000/(1000*1000+0.1*0.1)
      - 0.5 * ((0.9*Z_Ar*deltaValue T C_Ar a_Ar x0_Ar x1_Ar k_Ar 4
          + 0.1*(Z_C+Z_H*4) * deltaValue T C_CH4 a_CH4 x0_CH4 x1_CH4 k_CH4 4)/Z_eff) := by
    have e : (0.9*Z_Ar*deltaValue T C_Ar a_Ar x0_Ar x1_Ar k_Ar 4
          + 0.1*(Z_C+Z_H*4) * deltaValue T C_CH4 a_CH4 x0_CH4 x1_CH4 k_CH4 4)/Z_eff
        ≤ (0.9*18*(2 * 2.3025852 * 4 - 11.948 + 0.19714)
          + 0.1*(6+1*4) * (2 * 2.3025852 * 4 - 9.5243))/17.2 := by
      norm_num [Z_Ar, Z_C, Z_H, Z_eff]
      rw [div_le_div_iff₀ (by norm_num) (by norm_num)]
      linarith
    linarith
  calc (0.00365 : ℝ) < 0.0002157 * 16.94 := by norm_num
    _ < _ := mul_lt_mul hpre hbr.le (by norm_num) (by positivity)

/-- Bounds of `dedx` for unit charge, momentum `1000` and mass `100`
(the value is about `0.00266994`). -/
theorem dedxBB_at_100 (T : TMath ℝ) (hT : T.IsReal) :
    0.0026696 < dedxBB T 1 100 1000 ∧ dedxBB T 1 100 1000 < 0.0026703 := by
  have h := dedxBB_bounds T hT 100 1000 10.049 10.05 9.155 9.158
    (by norm_num) (by norm_num) (by norm_num) (by norm_num) (by norm_num) (by norm_num)
    (by norm_num)
    (lt_log_of_series 9.155 16 12 (by norm_num) (by norm_num) (by norm_num) (by norm_num)
      (by norm_num [Finset.sum_range_succ, Nat.factorial, kme]))
    (log_lt_of_series 9.158 16 12 (by norm_num) (by norm_num) (by norm_num [kme])
      (by norm_num [Finset.sum_range_succ, Nat.factorial, kme]))
  have hI := lnI_eff_bounds T hT
  norm_num [K, rho_P10, Z_eff, A_eff, Z_Ar, Z_C, Z_H, A_Ar, A_C, A_H] at h
  constructor
  · linarith [h.1, hI.1, hI.2]
  · linarith [h.2, hI.1, hI.2]

/-- Bounds of `dedx` for unit charge, momentum `1000` and mass `300`
(the value is about `0.00239198`). -/
theorem dedxBB_at_300 (T : TMath ℝ) (hT : T.IsReal) :
    0.0023916 < dedxBB T 1 300 1000 ∧ dedxBB T 1 300 1000 < 0.0023923 := by
  have h := dedxBB_bounds T hT 300 1000 3.4801 3.4802 4.846 4.849
    (by norm_num) (by norm_num) (by norm_num) (by norm_num) (by norm_num) (by norm_num)
    (by norm_num)
    (lt_log_of_series 4.846 16 12 (by norm_num) (by norm_num) (by norm_num) (by norm_num)
      (by norm_num [Finset.sum_range_succ, Nat.factorial, kme]))
    (log_lt_of_series 4.849 16 12 (by norm_num) (by norm_num) (by norm_num [kme])
      (by norm_num [Finset.sum_range_succ, Nat.factorial, kme]))
  have hI := lnI_eff_bounds T hT
  norm_num [K, rho_P10, Z_eff, A_eff, Z_Ar, Z_C, Z_H, A_Ar, A_C, A_H] at h
  constructor
  · linarith [h.1, hI.1, hI.2]
  · linarith [h.2, hI.1, hI.2]

/-- Bounds of `dedx` for unit charge, momentum `1000` and mass `500`
(the value is about `0.00250025`). -/
theorem dedxBB_at_500 (T : TMath ℝ) (hT : T.IsReal) :
    0.0024998 < dedxBB T 1 500 1000 ∧ dedxBB T 1 500 1000 < 0.0025006 := by
  have h := dedxBB_bounds T hT 500 1000 2.236 2.2361 2.810 2.813
    (by norm_num) (by norm_num) (by norm_num) (by norm_num) (by norm_num) (by norm_num)
    (by norm_num)
    (lt_log_of_series 2.810 16 12 (by norm_num) (by norm_num) (by norm_num) (by norm_num)
      (by norm_num [Finset.sum_range_succ, Nat.factorial, kme]))
    (log_lt_of_series 2.813 16 12 (by norm_num) (by norm_num) (by norm_num [kme])
      (by norm_num [Finset.sum_range_succ, Nat.factorial, kme]))
  have hI := lnI_eff_bounds T hT
  norm_num [K, rho_P10, Z_eff, A_eff, Z_Ar, Z_C, Z_H, A_Ar, A_C, A_H] at h
  constructor
  · linarith [h.1, hI.1, hI.2]
  · linarith [h.2, hI.1, hI.2]

/-- Bounds of `dedx` for unit charge, momentum `1000` and mass `938.272`
(the value is about `0.00335985`). -/
theorem dedxBB_at_proton (T : TMath ℝ) (hT : T.IsReal) :
    0.0033592 < dedxBB T 1 938.272 1000 ∧ dedxBB T 1 938.272 1000 < 0.0033603 := by
  have h := dedxBB_bounds T hT 938.272 1000 1.4614 1.4615 0.295 0.298
    (by norm_num) (by norm_num) (by norm_num) (by norm_num) (by norm_num) (by norm_num)
    (by norm_num)
    (lt_log_of_series 0.295 16 12 (by norm_num) (by norm_num) (by norm_num) (by norm_num)
      (by norm_num [Finset.sum_range_succ, Nat.factorial, kme]))
    (log_lt_of_series 0.298 16 12 (by norm_num) (by norm_num) (by norm_num [kme])
      (by norm_num [Finset.sum_range_succ, Nat.factorial, kme]))
  have hI := lnI_eff_bounds T hT
  norm_num [K, rho_P10, Z_eff, A_eff, Z_Ar, Z_C, Z_H, A_Ar, A_C, A_H] at h
  constructor
  · linarith [h.1, hI.1, hI.2]
  · linarith [h.2, hI.1, hI.2]

/-- Bounds of `dedx` for unit charge, momentum `1000` and mass `10000`
(the value is about `0.0887454`). -/
theorem dedxBB_at_10000 (T : TMath ℝ) (hT : T.IsReal) :
    0.08872 < dedxBB T 1 10000 1000 ∧ dedxBB T 1 10000 1000 < 0.088775 := by
  have h := dedxBB_bounds T hT 10000 1000 1.0049 1.005 (-9.168) (-9.165)
    (by norm_num) (by norm_num) (by norm_num) (by norm_num) (by norm_num) (by norm_num)
    (by norm_num)
    (neg_lt_log_of_series 9.168 16 12 (by norm_num) (by norm_num) (by norm_num [kme])
      (by norm_num [Finset.sum_range_succ, Nat.factorial, kme]))
    (log_lt_neg_of_series 9.165 16 12 (by norm_num) (by norm_num) (by norm_num) (by norm_num)
      (by norm_num [Finset.sum_range_succ, Nat.factorial, kme]))
  have hI := lnI_eff_bounds T hT
  norm_num [K, rho_P10, Z_eff, A_eff, Z_Ar, Z_C, Z_H, A_Ar, A_C, A_H] at h
  constructor
  · linarith [h.1, hI.1, hI.2]
  · linarith [h.2, hI.1, hI.2]

/-- For unit charge and momentum `1000`, `dedx` is a continuous function of the mass on
`[100, ∞)`, where the density correction vanishes. -/
theorem dedxBB_continuousOn (T : TMath ℝ) (hT : T.IsReal) :
    ContinuousOn (fun m : ℝ => dedxBB T 1 m 1000) (Set.Ici 100) := by
  have hF : ContinuousOn (fun m : ℝ => K*rho_P10*1*1*Z_eff/A_eff/(1000*1000/(1000*1000+m*m))
      * (0.5 * Real.log (2*kme*(1000/m)^2
            * (2*kme*(1000/m)^2/(1+2*Real.sqrt (1+(1000/m)^2)*kme/m+(kme/m)^2)))
          - lnI_eff T - 1000*1000/(1000*1000+m*m))) (Set.Ici 100) := by
    intro m hm
    have hm0 : (0 : ℝ) < m := lt_of_lt_of_le (by norm_num) (Set.mem_Ici.mp hm)
    have hkme : (0 : ℝ) < kme := by norm_num [kme]
    apply ContinuousAt.continuousWithinAt
    have h0 : m ≠ 0 := hm0.ne'
    have h1 : (1000 : ℝ)*1000+m*m ≠ 0 := by positivity
    have h2 : (1000 : ℝ)*1000/(1000*1000+m*m) ≠ 0 := by positivity
    have h3 : 1+2*Real.sqrt (1+(1000/m)^2)*kme/m+(kme/m)^2 ≠ 0 := by positivity
    have h4 : 2*kme*(1000/m)^2
            * (2*kme*(1000/m)^2/(1+2*Real.sqrt (1+(1000/m)^2)*kme/m+(kme/m)^2)) ≠ 0 := by
      positivity
    fun_prop (disch := assumption)
  refine hF.congr ?_
  intro m hm
  have hm' : (100 : ℝ) ≤ m := Set.mem_Ici.mp hm
  exact dedxBB_of_le T hT 1 m 1000 (by linarith) (by norm_num) (by linarith)

/-- For unit charge and momentum `1000`, the mass `500` is not the only mass of the bracket with
its `dedx`: a mass in `[100, 300]` has the same. -/
theorem dedxBB_second_mass (T : TMath ℝ) (hT : T.IsReal) :
    ∃ m' : ℝ, 100 ≤ m' ∧ m' ≤ 300 ∧ dedxBB T 1 m' 1000 = dedxBB T 1 500 1000 := by
  have hc : ContinuousOn (fun m : ℝ => dedxBB T 1 m 1000) (Set.Icc 100 300) :=
    (dedxBB_continuousOn T hT).mono (fun m hm => Set.mem_Ici.mpr hm.1)
  have h100 := dedxBB_at_100 T hT
  have h300 := dedxBB_at_300 T hT
  have h500 := dedxBB_at_500 T hT
  have hmem : dedxBB T 1 500 1000
      ∈ Set.Icc ((fun m : ℝ => dedxBB T 1 m 1000) 300) ((fun m : ℝ => dedxBB T 1 m 1000) 100) := by
    constructor
    · show dedxBB T 1 300 1000 ≤ dedxBB T 1 500 1000
      linarith [h300.2, h500.1]
    · show dedxBB T 1 500 1000 ≤ dedxBB T 1 100 1000
      linarith [h500.2, h100.1]
  obtain ⟨m', hm', hval⟩ := intermediate_value_Icc' (by norm_num : (100 : ℝ) ≤ 300) hc hmem
  exact ⟨m', hm'.1, hm'.2, hval⟩

/-! ## Monotonicity in the mass between the minimum and the maximum of the formula -/

/-- If `G` drops by at most `log (s2/s1)` between `s1 < s2` and `G2` is at least `1 + 1/s1`, then
`(1 + s) * G` increases strictly. -/
theorem one_add_mul_lt (s1 s2 G1 G2 : ℝ) (hs1 : 0 < s1) (h12 : s1 < s2)
    (hG : G1 - G2 ≤ Real.log (s2 / s1)) (hG2 : 1 + 1 / s1 ≤ G2) :
    (1 + s1) * G1 < (1 + s2) * G2 := by
  have hr : 1 < s2 / s1 := by rw [lt_div_iff₀ hs1]; linarith
  have hlog : Real.log (s2 / s1) < s2 / s1 - 1 :=
    Real.log_lt_sub_one_of_pos (by linarith) hr.ne'
  have h1 : G1 < G2 + (s2 / s1 - 1) := by linarith
  have h2 : (1 + s1) * G1 < (1 + s1) * (G2 + (s2 / s1 - 1)) :=
    mul_lt_mul_of_pos_left h1 (by linarith)
  have h3 : (1 + s1) * (G2 + (s2 / s1 - 1))
      = (1 + s2) * G2 - (s2 - s1) * (G2 - (1 + 1 / s1)) := by
    field_simp
    ring
  have h4 : 0 ≤ (s2 - s1) * (G2 - (1 + 1 / s1)) :=
    mul_nonneg (by linarith) (by linarith)
  linarith

/-- The value `dedx` depends on the momentum through `mom*mom` only. -/
theorem dedxBB_neg_mom {α : Type} [LinearOrderedField α] (T : TMath α) (z m mom : α) :
    dedxBB T z m (-mom) = dedxBB T z m mom := by
  simp only [dedxBB, neg_mul_neg]

/-- The value `dedx` at the momentum `rigidity*z` is its value at `|z*rigidity|`. -/
theorem dedxBB_abs_mom {α : Type} [LinearOrderedField α] (T : TMath α) (z m rigidity : α) :
    dedxBB T z m (rigidity*z) = dedxBB T z m |z*rigidity| := by
  rcases le_total 0 (z*rigidity) with h | h
  · rw [abs_of_nonneg h, mul_comm]
  · rw [abs_of_nonpos h, dedxBB_neg_mom, mul_comm]

/-- Gluing of two adjacent intervals on which a function increases strictly. -/
theorem strictMono_glue (f : ℝ → ℝ) (lo a b c : ℝ)
    (h1 : ∀ x y, lo ≤ x → a ≤ x → x < y → y ≤ b → f x < f y)
    (h2 : ∀ x y, lo ≤ x → b ≤ x → x < y → y ≤ c → f x < f y) :
    ∀ x y, lo ≤ x → a ≤ x → x < y → y ≤ c → f x < f y := by
  intro x y hlo hax hxy hyc
  rcases le_or_lt y b with hyb | hby
  · exact h1 x y hlo hax hxy hyb
  · rcases le_or_lt b x with hbx | hxb
    · exact h2 x y hlo hbx hxy hyc
    · exact lt_trans (h1 x b hlo hax hxb le_rfl) (h2 b y (by linarith) le_rfl hby hyc)

/-- The prefactor `c/b2` and the bracket `G - b2` of the formula, with `1/b2 = 1 + (m/P)²`. -/
theorem prefactor_form (c G P m : ℝ) (hP : 0 < P) (hm : 0 < m) :
    c/(P*P/(P*P+m*m)) * (G - P*P/(P*P+m*m)) = c * ((1 + (m/P)^2) * G - 1) := by
  have h : P*P+m*m ≠ 0 := by positivity
  field_simp
  ring

/-- On a window `qa ≤ mom/m ≤ qb` of the ratio of momentum to mass, with masses of at least
`10`, `dedx` increases strictly with the mass, provided the logarithm at the lower end of the
window is large enough against `1 + qb²`. -/
theorem dedxBB_lt_of_window (T : TMath ℝ) (hT : T.IsReal) (z P m1 m2 qa qb L : ℝ) (hz : z ≠ 0)
    (hP : 0 < P) (hm1 : 10 ≤ m1) (h12 : m1 < m2) (hqa : 0 < qa) (hqb : qb ≤ 3)
    (ha : qa * m2 ≤ P) (hb : P ≤ qb * m1)
    (hL : L ≤ Real.log (2*kme*qa^2)) (hG : 1 + qb^2 + 0.17 ≤ L + 8.666) :
    dedxBB T z m1 P < dedxBB T z m2 P := by
  have hm1p : 0 < m1 := by linarith
  have hm2p : 0 < m2 := by linarith
  have hkme : (0 : ℝ) < kme := by norm_num [kme]
  have hq1 : 0 < P / m1 := div_pos hP hm1p
  have hq2 : 0 < P / m2 := div_pos hP hm2p
  have hq21 : P / m2 < P / m1 := div_lt_div_of_pos_left hP hm1p h12
  have hq1b : P / m1 ≤ qb := by rw [div_le_iff₀ hm1p]; exact hb
  have hq2a : qa ≤ P / m2 := by rw [le_div_iff₀ hm2p]; exact ha
  have hr1 : 0 < kme / m1 := div_pos hkme hm1p
  have hr2 : 0 < kme / m2 := div_pos hkme hm2p
  have hr21 : kme / m2 ≤ kme / m1 := (div_lt_div_of_pos_left hkme hm1p h12).le
  have hr2b : kme / m2 ≤ 0.05109989461 := by
    rw [div_le_iff₀ hm2p]
    norm_num [kme]
    linarith
  -- the two closed forms
  rw [dedxBB_of_le T hT z m1 P hm1p hP (by nlinarith),
    dedxBB_of_le T hT z m2 P hm2p hP (by nlinarith)]
  -- names
  have hN1 : 0 < 2*kme*(P/m1)^2 := by positivity
  have hN2 : 0 < 2*kme*(P/m2)^2 := by positivity
  have hsq21 : Real.sqrt (1+(P/m2)^2) ≤ Real.sqrt (1+(P/m1)^2) := by
    apply Real.sqrt_le_sqrt
    have := pow_le_pow_left₀ hq2.le hq21.le 2
    linarith
  have hsq2 : Real.sqrt (1+(P/m2)^2) ≤ 3.17 := by
    rw [Real.sqrt_le_iff]
    constructor
    · norm_num
    · have : (P/m2)^2 ≤ 3^2 := pow_le_pow_left₀ hq2.le (by linarith) 2
      norm_num at this ⊢
      linarith
  have hsq2' : 0 ≤ Real.sqrt (1+(P/m2)^2) := Real.sqrt_nonneg _
  have hD1 : 0 < 1+2*Real.sqrt (1+(P/m1)^2)*kme/m1+(kme/m1)^2 := by positivity
  have hD2 : 0 < 1+2*Real.sqrt (1+(P/m2)^2)*kme/m2+(kme/m2)^2 := by positivity
  have hD21 : 1+2*Real.sqrt (1+(P/m2)^2)*kme/m2+(kme/m2)^2
      ≤ 1+2*Real.sqrt (1+(P/m1)^2)*kme/m1+(kme/m1)^2 := by
    have e1 : 2*Real.sqrt (1+(P/m2)^2)*kme/m2 = 2*Real.sqrt (1+(P/m2)^2)*(kme/m2) := by ring
    have e2 : 2*Real.sqrt (1+(P/m1)^2)*kme/m1 = 2*Real.sqrt (1+(P/m1)^2)*(kme/m1) := by ring
    have h1 : 2*Real.sqrt (1+(P/m2)^2)*(kme/m2) ≤ 2*Real.sqrt (1+(P/m1)^2)*(kme/m1) := by
      gcongr
    have h2 : (kme/m2)^2 ≤ (kme/m1)^2 := pow_le_pow_left₀ hr2.le hr21 2
    rw [e1, e2]
    linarith
  have hD2u : 1+2*Real.sqrt (1+(P/m2)^2)*kme/m2+(kme/m2)^2 ≤ 1.34 := by
    have e1 : 2*Real.sqrt (1+(P/m2)^2)*kme/m2 = 2*Real.sqrt (1+(P/m2)^2)*(kme/m2) := by ring
    have h1 : 2*Real.sqrt (1+(P/m2)^2)*(kme/m2) ≤ 2*3.17*0.05109989461 := by
      gcongr
    have h2 : (kme/m2)^2 ≤ 0.05109989461^2 := pow_le_pow_left₀ hr2.le hr2b 2
    rw [e1]
    norm_num at h1 h2 ⊢
    linarith
  have hlogD21 := Real.log_le_log hD2 hD21
  have hlogD2 : Real.log (1+2*Real.sqrt (1+(P/m2)^2)*kme/m2+(kme/m2)^2) ≤ 0.34 := by
    have := Real.log_le_sub_one_of_pos hD2
    linarith
  have hlogN2 : L ≤ Real.log (2*kme*(P/m2)^2) := by
    refine hL.trans (Real.log_le_log (by positivity) ?_)
    have : qa^2 ≤ (P/m2)^2 := pow_le_pow_left₀ hqa.le hq2a 2
    gcongr
  have hI := lnI_eff_bounds T hT
  have eL1 : Real.log (2*kme*(P/m1)^2
        * (2*kme*(P/m1)^2/(1+2*Real.sqrt (1+(P/m1)^2)*kme/m1+(kme/m1)^2)))
      = 2 * Real.log (2*kme*(P/m1)^2)
        - Real.log (1+2*Real.sqrt (1+(P/m1)^2)*kme/m1+(kme/m1)^2) := by
    rw [Real.log_mul hN1.ne' (div_pos hN1 hD1).ne', Real.log_div hN1.ne' hD1.ne']
    ring
  have eL2 : Real.log (2*kme*(P/m2)^2
        * (2*kme*(P/m2)^2/(1+2*Real.sqrt (1+(P/m2)^2)*kme/m2+(kme/m2)^2)))
      = 2 * Real.log (2*kme*(P/m2)^2)
        - Real.log (1+2*Real.sqrt (1+(P/m2)^2)*kme/m2+(kme/m2)^2) := by
    rw [Real.log_mul hN2.ne' (div_pos hN2 hD2).ne', Real.log_div hN2.ne' hD2.ne']
    ring
  rw [eL1, eL2]
  -- the ratio of the two arguments
  have hs1 : 0 < (m1/P)^2 := by positivity
  have hNN : Real.log (2*kme*(P/m1)^2) - Real.log (2*kme*(P/m2)^2)
      = Real.log ((m2/P)^2 / (m1/P)^2) := by
    rw [← Real.log_div hN1.ne' hN2.ne']
    congr 1
    field_simp
    ring
  have hs12 : (m1/P)^2 < (m2/P)^2 := by
    exact pow_lt_pow_left₀ (div_lt_div_of_pos_right h12 hP) (by positivity) (by norm_num)
  have hq1sq : 1 / (m1/P)^2 = (P/m1)^2 := by
    field_simp
  have hq1b2 : (P/m1)^2 ≤ qb^2 := pow_le_pow_left₀ hq1.le hq1b 2
  have key := one_add_mul_lt ((m1/P)^2) ((m2/P)^2)
    (0.5 * (2 * Real.log (2*kme*(P/m1)^2)
        - Real.log (1+2*Real.sqrt (1+(P/m1)^2)*kme/m1+(kme/m1)^2)) - lnI_eff T)
    (0.5 * (2 * Real.log (2*kme*(P/m2)^2)
        - Real.log (1+2*Real.sqrt (1+(P/m2)^2)*kme/m2+(kme/m2)^2)) - lnI_eff T)
    hs1 hs12 (by rw [← hNN]; linarith) (by rw [hq1sq]; linarith [hI.2])
  -- the prefactor
  have hc : 0 < K*rho_P10*z*z*Z_eff/A_eff := by
    have hzz : 0 < z*z := mul_self_pos.mpr hz
    have h2 : (0 : ℝ) < K*rho_P10*Z_eff/A_eff := by
      norm_num [K, rho_P10, Z_eff, A_eff, Z_Ar, Z_C, Z_H, A_Ar, A_C, A_H]
    have e : K*rho_P10*z*z*Z_eff/A_eff = K*rho_P10*Z_eff/A_eff*(z*z) := by ring
    rw [e]
    positivity
  rw [prefactor_form _ _ P m1 hP hm1p, prefactor_form _ _ P m2 hP hm2p]
  apply mul_lt_mul_of_pos_left _ hc
  linarith

/-- For a positive momentum `P` and masses of at least `10` with `P/3 ≤ m ≤ 40 P` (the ratio of
momentum to mass between `0.025` and `3`: as a function of the mass the formula has its minimum
where the ratio is a little above `3` and its maximum where it is about `0.021`), `dedx`
increases strictly with the mass. -/
theorem dedxBB_strictMono_mass (T : TMath ℝ) (hT : T.IsReal) (z P : ℝ) (hz : z ≠ 0)
    (hP : 0 < P) :
    ∀ m1 m2, 10 ≤ m1 → P / 3 ≤ m1 → m1 < m2 → m2 ≤ 40 * P →
      dedxBB T z m1 P < dedxBB T z m2 P := by
  have hkme : (0 : ℝ) < kme := by norm_num [kme]
  have p1 : ∀ m1 m2, 10 ≤ m1 → P / 3 ≤ m1 → m1 < m2 → m2 ≤ P / 2.5 →
      dedxBB T z m1 P < dedxBB T z m2 P := by
    intro m1 m2 h10 ha h12 hb
    have hb' : 2.5 * m2 ≤ P := by rw [le_div_iff₀ (by norm_num)] at hb; linarith
    have ha' : P ≤ 3 * m1 := by rw [div_le_iff₀ (by norm_num)] at ha; linarith
    refine dedxBB_lt_of_window T hT z P m1 m2 2.5 3 1.6 hz hP h10 h12 (by norm_num) le_rfl
      hb' ha' ?_ (by norm_num)
    exact (lt_log_of_series 1.6 16 12 (by norm_num) (by norm_num) (by norm_num) (by norm_num)
      (by norm_num [Finset.sum_range_succ, Nat.factorial, kme])).le
  have p2 : ∀ m1 m2, 10 ≤ m1 → P / 2.5 ≤ m1 → m1 < m2 → m2 ≤ P / 1.5 →
      dedxBB T z m1 P < dedxBB T z m2 P := by
    intro m1 m2 h10 ha h12 hb
    have hb' : 1.5 * m2 ≤ P := by rw [le_div_iff₀ (by norm_num)] at hb; linarith
    have ha' : P ≤ 2.5 * m1 := by rw [div_le_iff₀ (by norm_num)] at ha; linarith
    refine dedxBB_lt_of_window T hT z P m1 m2 1.5 2.5 0 hz hP h10 h12 (by norm_num)
      (by norm_num) hb' ha' ?_ (by norm_num)
    exact Real.log_nonneg (by norm_num [kme])
  have p3 : ∀ m1 m2, 10 ≤ m1 → P / 1.5 ≤ m1 → m1 < m2 → m2 ≤ P / 0.1 →
      dedxBB T z m1 P < dedxBB T z m2 P := by
    intro m1 m2 h10 ha h12 hb
    have hb' : 0.1 * m2 ≤ P := by rw [le_div_iff₀ (by norm_num)] at hb; linarith
    have ha' : P ≤ 1.5 * m1 := by rw [div_le_iff₀ (by norm_num)] at ha; linarith
    refine dedxBB_lt_of_window T hT z P m1 m2 0.1 1.5 (-4.6) hz hP h10 h12 (by norm_num)
      (by norm_num) hb' ha' ?_ (by norm_num)
    exact (neg_lt_log_of_series 4.6 16 12 (by norm_num) (by norm_num) (by norm_num [kme])
      (by norm_num [Finset.sum_range_succ, Nat.factorial, kme])).le
  have p4 : ∀ m1 m2, 10 ≤ m1 → P / 0.1 ≤ m1 → m1 < m2 → m2 ≤ P / 0.025 →
      dedxBB T z m1 P < dedxBB T z m2 P := by
    intro m1 m2 h10 ha h12 hb
    have hb' : 0.025 * m2 ≤ P := by rw [le_div_iff₀ (by norm_num)] at hb; linarith
    have ha' : P ≤ 0.1 * m1 := by rw [div_le_iff₀ (by norm_num)] at ha; linarith
    refine dedxBB_lt_of_window T hT z P m1 m2 0.025 0.1 (-7.4) hz hP h10 h12 (by norm_num)
      (by norm_num) hb' ha' ?_ (by norm_num)
    exact (neg_lt_log_of_series 7.4 16 12 (by norm_num) (by norm_num) (by norm_num [kme])
      (by norm_num [Finset.sum_range_succ, Nat.factorial, kme])).le
  have g := strictMono_glue (fun m => dedxBB T z m P) 10 _ _ _
    (strictMono_glue (fun m => dedxBB T z m P) 10 _ _ _
      (strictMono_glue (fun m => dedxBB T z m P) 10 _ _ _ p1 p2) p3) p4
  intro m1 m2 h10 ha h12 hb
  refine g m1 m2 h10 ha h12 ?_
  rw [le_div_iff₀ (by norm_num)]
  linarith

/-! ## Round trip and the search bracket (C1, C2) -/

/-- C1, counterexample. For `z = 1`, `rigidity = 1000`, `m = 500` and the calibration `(1, 0)`,
all inside the stated range, the residual built from `response = fBBdedx(1, 500, [1000], [1, 0])`
has a zero `m'` in the bracket `[0.1, 10000]` that is not within `1e-4 * 500` of `500` (it lies
in `[100, 300]`): the mean energy loss has a minimum between the two masses. -/
theorem round_trip_second_root :
    ∃ resp m' : ℝ,
      fBBdedx ⟨Real.log, Real.logb 10, Real.sqrt, fun x y => x ^ y⟩ 1 500 [1000] [1, 0]
        = some resp ∧
      0.1 ≤ m' ∧ m' ≤ 10000 ∧
      BBMassFinderEq ⟨Real.log, Real.logb 10, Real.sqrt, fun x y => x ^ y⟩ [m']
        [1, 0, 1, 1000, resp] = some 0 ∧
      ¬ (|m' - 500| ≤ 1e-4 * 500) := by
  obtain ⟨m', h1, h2, h3⟩ := dedxBB_second_mass _ isReal_mk
  refine ⟨_, m', fBBdedx_eq .., by linarith, by linarith, ?_, ?_⟩
  · rw [BBMassFinderEq_eq, mul_one, h3]
    congr 1
    ring
  · rw [abs_of_neg (by linarith)]
    norm_num
    linarith

/-- C1, amended. Over the reals, for every `z` and rigidity with `z * rigidity ≠ 0`, every mass
`m` in `[0.1, 10000]` and every calibration `(n ≠ 0, o)`, if `m` lies in the part of the bracket
where the formula increases with the mass, `10 ≤ m` and `|z*rigidity|/3 ≤ m ≤ 40 |z*rigidity|`,
then with `response = fBBdedx(z, m, [rigidity], [n, o])` the residual `BBMassFinderEq` over the
parameters `(n, o, z, rigidity, response)` is zero at `m`, and at every mass `m'` of the bracket
in the same part (`10 ≤ m'`, `|z*rigidity|/3 ≤ m' ≤ 40 |z*rigidity|`) the residual times the
normalization is positive for `m' < m` and negative for `m < m'`; so every such `m'` at which
the residual is zero satisfies `|m' - m| ≤ 1e-4 * m`, and whenever the root that `CalcBBMass`
returns is a zero of the residual in that part of the bracket, it is within `1e-4 * m` of `m`.
(Outside that part the residual can have a second zero.) -/
theorem round_trip_below_minimum (T : TMath ℝ) (hT : T.IsReal) (z rigidity m n o : ℝ)
    (hzr : z * rigidity ≠ 0) (hm : m ∈ Set.Icc (0.1 : ℝ) 10000) (hn : n ≠ 0)
    (hw1 : 10 ≤ m) (hw2 : |z * rigidity| ≤ 3 * m) (hw3 : m ≤ 40 * |z * rigidity|) :
    ∃ resp, fBBdedx T z m [rigidity] [n, o] = some resp ∧
      BBMassFinderEq T [m] [n, o, z, rigidity, resp] = some 0 ∧
      (∀ m', m' ∈ Set.Icc (0.1 : ℝ) 10000 → 10 ≤ m' → |z * rigidity| ≤ 3 * m' →
          m' ≤ 40 * |z * rigidity| →
        ∃ r, BBMassFinderEq T [m'] [n, o, z, rigidity, resp] = some r ∧
          (m' < m → 0 < n * r) ∧ (m < m' → n * r < 0) ∧
          (r = 0 → |m' - m| ≤ 1e-4 * m)) ∧
      (∀ (finder : (ℝ → Option ℝ) → ℝ → ℝ → Bool × ℝ) (root : ℝ),
        CalcBBMass finder T [n, o, z, rigidity, resp] = root →
        BBMassFinderEq T [root] [n, o, z, rigidity, resp] = some 0 →
        root ∈ Set.Icc (0.1 : ℝ) 10000 → 10 ≤ root → |z * rigidity| ≤ 3 * root →
        root ≤ 40 * |z * rigidity| → |root - m| ≤ 1e-4 * m) := by
  have hz : z ≠ 0 := left_ne_zero_of_mul hzr
  have hP : 0 < |z * rigidity| := abs_pos.mpr hzr
  have hnn : 0 < n * n := mul_self_pos.mpr hn
  have hm0 : 0 ≤ 1e-4 * m := mul_nonneg (by norm_num) (le_trans (by norm_num) hm.1)
  have hm3 : |z * rigidity| / 3 ≤ m := by rw [div_le_iff₀ (by norm_num)]; linarith
  have mono := dedxBB_strictMono_mass T hT z |z * rigidity| hz hP
  -- the sign of the residual at a mass of the same part of the bracket
  have key : ∀ m', 10 ≤ m' → |z * rigidity| ≤ 3 * m' → m' ≤ 40 * |z * rigidity| →
      (m' < m →
        0 < n * (n * dedxBB T z m (rigidity*z) + o - n * dedxBB T z m' (rigidity*z) - o)) ∧
      (m < m' →
        n * (n * dedxBB T z m (rigidity*z) + o - n * dedxBB T z m' (rigidity*z) - o) < 0) := by
    intro m' h1 h2 h3
    have hm3' : |z * rigidity| / 3 ≤ m' := by rw [div_le_iff₀ (by norm_num)]; linarith
    rw [dedxBB_abs_mom T z m, dedxBB_abs_mom T z m']
    constructor
    · intro hlt
      have := mono m' m h1 hm3' hlt hw3
      nlinarith
    · intro hlt
      have := mono m m' hw1 hm3 hlt h3
      nlinarith
  have zero_imp : ∀ m', 10 ≤ m' → |z * rigidity| ≤ 3 * m' → m' ≤ 40 * |z * rigidity| →
      n * dedxBB T z m (rigidity*z) + o - n * dedxBB T z m' (rigidity*z) - o = 0 →
      |m' - m| ≤ 1e-4 * m := by
    intro m' h1 h2 h3 h0
    have hk := key m' h1 h2 h3
    rw [h0, mul_zero] at hk
    have : m' = m := by
      rcases lt_trichotomy m' m with h | h | h
      · exact absurd (hk.1 h) (lt_irrefl 0)
      · exact h
      · exact absurd (hk.2 h) (lt_irrefl 0)
    rw [this, sub_self, abs_zero]
    exact hm0
  refine ⟨_, fBBdedx_eq .., ?_, fun m' _ h1 h2 h3 => ?_,
    fun finder root _ hroot _ h1 h2 h3 => ?_⟩
  · rw [BBMassFinderEq_eq]
    congr 1
    ring
  · exact ⟨_, BBMassFinderEq_eq .., (key m' h1 h2 h3).1, (key m' h1 h2 h3).2,
      zero_imp m' h1 h2 h3⟩
  · rw [BBMassFinderEq_eq] at hroot
    exact zero_imp root h1 h2 h3 (Option.some.inj hroot)

/-- Witness of C1 (amended) at the proton example (`z = 1`, `rigidity = 1000`, `m = 938.272`,
calibration `(1, 0)`): the residual is zero at `938.272`, positive at the mass `400` and
negative at the mass `2000`, both in the part of the bracket the theorem is about. -/
theorem round_trip_below_minimum_witness :
    TMath.IsReal ⟨Real.log, Real.logb 10, Real.sqrt, fun x y => x ^ y⟩ ∧
    (1 : ℝ) * 1000 ≠ 0 ∧ (938.272 : ℝ) ∈ Set.Icc (0.1 : ℝ) 10000 ∧ (1 : ℝ) ≠ 0 ∧
    (10 : ℝ) ≤ 938.272 ∧ |(1 : ℝ) * 1000| ≤ 3 * 938.272 ∧ (938.272 : ℝ) ≤ 40 * |(1 : ℝ) * 1000| ∧
    ∃ resp : ℝ,
      fBBdedx ⟨Real.log, Real.logb 10, Real.sqrt, fun x y => x ^ y⟩ 1 938.272 [1000] [1, 0]
        = some resp ∧
      BBMassFinderEq ⟨Real.log, Real.logb 10, Real.sqrt, fun x y => x ^ y⟩ [938.272]
        [1, 0, 1, 1000, resp] = some 0 ∧
      (∃ r, BBMassFinderEq ⟨Real.log, Real.logb 10, Real.sqrt, fun x y => x ^ y⟩ [400]
        [1, 0, 1, 1000, resp] = some r ∧ 0 < r) ∧
      (∃ r, BBMassFinderEq ⟨Real.log, Real.logb 10, Real.sqrt, fun x y => x ^ y⟩ [2000]
        [1, 0, 1, 1000, resp] = some r ∧ r < 0) := by
  have ha : |(1 : ℝ) * 1000| = 1000 := by norm_num
  have hI : ∀ x : ℝ, 0.1 ≤ x → x ≤ 10000 → x ∈ Set.Icc (0.1 : ℝ) 10000 :=
    fun x h1 h2 => ⟨h1, h2⟩
  refine ⟨isReal_mk, by norm_num, hI _ (by norm_num) (by norm_num), one_ne_zero, by norm_num,
    by rw [ha]; norm_num, by rw [ha]; norm_num, ?_⟩
  obtain ⟨resp, h1, h2, h3, -⟩ := round_trip_below_minimum _ isReal_mk 1 1000 938.272 1 0
    (by norm_num) (hI _ (by norm_num) (by norm_num)) one_ne_zero (by norm_num)
    (by rw [ha]; norm_num) (by rw [ha]; norm_num)
  obtain ⟨ra, ha1, ha2, -, -⟩ := h3 400 (hI _ (by norm_num) (by norm_num)) (by norm_num)
    (by rw [ha]; norm_num) (by rw [ha]; norm_num)
  obtain ⟨rb, hb1, -, hb2, -⟩ := h3 2000 (hI _ (by norm_num) (by norm_num)) (by norm_num)
    (by rw [ha]; norm_num) (by rw [ha]; norm_num)
  refine ⟨resp, h1, h2, ⟨ra, ha1, ?_⟩, ⟨rb, hb1, ?_⟩⟩
  · have := ha2 (by norm_num)
    linarith
  · have := hb2 (by norm_num)
    linarith

/-- C2, counterexample. For the proton example (`z = 1`, `m = 938.272`, `rigidity = 1000`,
calibration `(1.0, 0.0)`), the residual does not take values of opposite sign at the two ends
`0.1` and `10000` of the search bracket. -/
theorem proton_bracket_no_sign_change :
    ¬ ∃ resp r_lo r_hi : ℝ,
      fBBdedx ⟨Real.log, Real.logb 10, Real.sqrt, fun x y => x ^ y⟩ 1 938.272 [1000] [1.0, 0.0]
        = some resp ∧
      BBMassFinderEq ⟨Real.log, Real.logb 10, Real.sqrt, fun x y => x ^ y⟩ [0.1]
        [1.0, 0.0, 1, 1000, resp] = some r_lo ∧
      BBMassFinderEq ⟨Real.log, Real.logb 10, Real.sqrt, fun x y => x ^ y⟩ [10000]
        [1.0, 0.0, 1, 1000, resp] = some r_hi ∧
      ((r_lo < 0 ∧ 0 < r_hi) ∨ (0 < r_lo ∧ r_hi < 0)) := by
  rintro ⟨resp, r_lo, r_hi, h1, h2, h3, h4⟩
  rw [fBBdedx_eq] at h1
  rw [BBMassFinderEq_eq] at h2 h3
  have e1 := Option.some.inj h1
  have e2 := Option.some.inj h2
  have e3 := Option.some.inj h3
  have hp := dedxBB_at_proton _ isReal_mk
  have hl := dedxBB_at_low _ isReal_mk
  have hh := dedxBB_at_10000 _ isReal_mk
  rw [mul_one] at e1 e2 e3
  rcases h4 with ⟨_, h⟩ | ⟨h, _⟩
  · linarith [hp.2, hh.1]
  · linarith [hp.2, hl]

/-- C2, amended. For the proton example (`z = 1`, `m = 938.272`, `rigidity = 1000`,
calibration `(1.0, 0.0)`), with `response = fBBdedx(1, 938.272, [1000], [1.0, 0.0])`, the
residual `BBMassFinderEq` with parameters `(1.0, 0.0, 1, 1000, response)` is negative at the
two ends `0.1` and `10000` of the search bracket, positive at the interior mass `300` and zero
at `938.272`: the two ends of the bracket do not enclose a sign change, the sub-bracket
`[300, 10000]` does. -/
theorem proton_residual_signs (T : TMath ℝ) (hT : T.IsReal) :
    ∃ resp r_lo r_hi r_mid : ℝ,
      fBBdedx T 1 938.272 [1000] [1.0, 0.0] = some resp ∧
      BBMassFinderEq T [0.1] [1.0, 0.0, 1, 1000, resp] = some r_lo ∧
      BBMassFinderEq T [10000] [1.0, 0.0, 1, 1000, resp] = some r_hi ∧
      BBMassFinderEq T [300] [1.0, 0.0, 1, 1000, resp] = some r_mid ∧
      BBMassFinderEq T [938.272] [1.0, 0.0, 1, 1000, resp] = some 0 ∧
      r_lo < 0 ∧ r_hi < 0 ∧ 0 < r_mid := by
  have hp := dedxBB_at_proton T hT
  have hl := dedxBB_at_low T hT
  have hh := dedxBB_at_10000 T hT
  have hm := dedxBB_at_300 T hT
  refine ⟨_, _, _, _, fBBdedx_eq .., BBMassFinderEq_eq .., BBMassFinderEq_eq ..,
    BBMassFinderEq_eq .., ?_, ?_, ?_, ?_⟩
  · rw [BBMassFinderEq_eq]
    congr 1
    ring
  · rw [mul_one]; linarith [hp.2]
  · rw [mul_one]; linarith [hp.2, hh.1]
  · rw [mul_one]; linarith [hp.1, hm.2]

/-- Witness of C2 (amended) for the real `TMath` functions. -/
theorem proton_residual_signs_witness :
    TMath.IsReal ⟨Real.log, Real.logb 10, Real.sqrt, fun x y => x ^ y⟩ ∧
    ∃ resp r_lo r_hi r_mid : ℝ,
      fBBdedx ⟨Real.log, Real.logb 10, Real.sqrt, fun x y => x ^ y⟩ 1 938.272 [1000] [1.0, 0.0]
        = some resp ∧
      BBMassFinderEq ⟨Real.log, Real.logb 10, Real.sqrt, fun x y => x ^ y⟩ [0.1]
        [1.0, 0.0, 1, 1000, resp] = some r_lo ∧
      BBMassFinderEq ⟨Real.log, Real.logb 10, Real.sqrt, fun x y => x ^ y⟩ [10000]
        [1.0, 0.0, 1, 1000, resp] = some r_hi ∧
      BBMassFinderEq ⟨Real.log, Real.logb 10, Real.sqrt, fun x y => x ^ y⟩ [300]
        [1.0, 0.0, 1, 1000, resp] = some r_mid ∧
      BBMassFinderEq ⟨Real.log, Real.logb 10, Real.sqrt, fun x y => x ^ y⟩ [938.272]
        [1.0, 0.0, 1, 1000, resp] = some 0 ∧
      r_lo < 0 ∧ r_hi < 0 ∧ 0 < r_mid :=
  ⟨isReal_mk, proton_residual_signs _ isReal_mk⟩

/-! ## Charge scaling of `dedx` -/

/-- The value of `dedx` is proportional to the square of the charge at fixed momentum. -/
theorem dedxBB_charge_sq {α : Type} [LinearOrderedField α] (T : TMath α) (z m mom : α) :
    dedxBB T z m mom = z ^ 2 * dedxBB T 1 m mom := by
  simp only [dedxBB]
  ring

/-! ## Ranges of `b2` and `xi` -/

/-- For a positive mass and a nonzero momentum, `b2` lies strictly between `0` and `1`. -/
theorem b2_bounds (m P : ℝ) (hm : 0 < m) (hP : P ≠ 0) :
    0 < P*P/(P*P+m*m) ∧ P*P/(P*P+m*m) < 1 := by
  have h1 : 0 < P*P := mul_self_pos.mpr hP
  have h2 : 0 < m*m := mul_pos hm hm
  constructor
  · positivity
  · rw [div_lt_one (by positivity)]
    linarith

/-- For a positive mass, a nonzero momentum, a nonzero charge and a positive thickness, `xi` is
positive. -/
theorem xi_pos (z m P p2 : ℝ) (hz : z ≠ 0) (hm : 0 < m) (hP : P ≠ 0) (hp2 : 0 < p2) :
    0 < K/2*Z_eff/A_eff*z*z/(P*P/(P*P+m*m))*(rho_P10*p2) := by
  have hb := b2_bounds m P hm hP
  have hz2 : 0 < z*z := mul_self_pos.mpr hz
  have hc : (0 : ℝ) < K/2*Z_eff/A_eff := by
    norm_num [K, Z_eff, A_eff, Z_Ar, Z_C, Z_H, A_Ar, A_C, A_H]
  have hr : (0 : ℝ) < rho_P10 := by norm_num [rho_P10]
  have h3 : 0 < P*P/(P*P+m*m) := hb.1
  have e : K/2*Z_eff/A_eff*z*z/(P*P/(P*P+m*m))*(rho_P10*p2)
      = (K/2*Z_eff/A_eff)*(z*z)/(P*P/(P*P+m*m))*(rho_P10*p2) := by ring
  rw [e]
  positivity

/-! ## Charge scaling of the most probable model (C11) -/

/-- The function `s ↦ s (a + κ ln s)` with `κ > 0` is strictly increasing from the point where
`a + κ (1 + ln s)` is nonnegative. -/
theorem mul_log_lt_of_nonneg (a κ s1 s2 : ℝ) (hκ : 0 < κ) (h1 : 0 < s1) (h12 : s1 < s2)
    (h : 0 ≤ a + κ * (1 + Real.log s1)) :
    s1 * (a + κ * Real.log s1) < s2 * (a + κ * Real.log s2) := by
  have h2 : 0 < s2 := h1.trans h12
  have hq : 0 < s1 / s2 := div_pos h1 h2
  have hne : s1 / s2 ≠ 1 := by
    rw [Ne, div_eq_one_iff_eq h2.ne']
    exact h12.ne
  have hlog := Real.log_lt_sub_one_of_pos hq hne
  rw [Real.log_div h1.ne' h2.ne'] at hlog
  have hk : s2 - s1 < s2 * (Real.log s2 - Real.log s1) := by
    have := mul_lt_mul_of_pos_left hlog h2
    have e : s2 * (s1 / s2 - 1) = s1 - s2 := by field_simp
    rw [e] at this
    linarith
  have hk2 := mul_lt_mul_of_pos_left hk hκ
  have hk3 := mul_nonneg (sub_nonneg.mpr h12.le) h
  nlinarith [hk2, hk3]

/-- The function `s ↦ s (a + κ ln s)` with `κ > 0` is strictly decreasing up to the point where
`a + κ (1 + ln s)` is nonpositive. -/
theorem mul_log_lt_of_nonpos (a κ s1 s2 : ℝ) (hκ : 0 < κ) (h1 : 0 < s1) (h12 : s1 < s2)
    (h : a + κ * (1 + Real.log s2) ≤ 0) :
    s2 * (a + κ * Real.log s2) < s1 * (a + κ * Real.log s1) := by
  have h2 : 0 < s2 := h1.trans h12
  have hq : 0 < s2 / s1 := div_pos h2 h1
  have hne : s2 / s1 ≠ 1 := by
    rw [Ne, div_eq_one_iff_eq h1.ne']
    exact h12.ne'
  have hlog := Real.log_lt_sub_one_of_pos hq hne
  rw [Real.log_div h2.ne' h1.ne'] at hlog
  have hk : s1 * (Real.log s2 - Real.log s1) < s2 - s1 := by
    have := mul_lt_mul_of_pos_left hlog h1
    have e : s1 * (s2 / s1 - 1) = s2 - s1 := by field_simp
    rw [e] at this
    linarith
  have hk2 := mul_lt_mul_of_pos_left hk hκ
  have hk3 := mul_nonpos_of_nonneg_of_nonpos (sub_nonneg.mpr h12.le) h
  nlinarith [hk2, hk3]

/-- Over the reals, `delta_p` for the charge `z ≠ 0` in terms of `delta_p` for unit charge at
the same momentum: `xi` is proportional to `z²` and enters through `xi ln xi`. -/
theorem deltapLV_charge (T : TMath ℝ) (hT : T.IsReal) (z m P t : ℝ) (hz : z ≠ 0)
    (hxi : K/2*Z_eff/A_eff*1*1/(P*P/(P*P+m*m))*(rho_P10*t) ≠ 0) :
    deltapLV T z m P t = z ^ 2 * deltapLV T 1 m P t
      + z ^ 2 * (K/2*Z_eff/A_eff*1*1/(P*P/(P*P+m*m))*(rho_P10*t)) * Real.log (z ^ 2) := by
  have e : K/2*Z_eff/A_eff*z*z/(P*P/(P*P+m*m))*(rho_P10*t)
      = z ^ 2 * (K/2*Z_eff/A_eff*1*1/(P*P/(P*P+m*m))*(rho_P10*t)) := by ring
  simp only [deltapLV, hT.log]
  rw [e, Real.log_mul (pow_ne_zero 2 hz) hxi]
  ring

/-- Over the reals, the most probable response of the charge `z ≠ 0` at the momentum `P`, in
terms of `delta_p` for unit charge. -/
theorem fLVdedx_coscaled (T : TMath ℝ) (hT : T.IsReal) (z m P n o t : ℝ) (hz : z ≠ 0)
    (hm : 0 < m) (hP : P ≠ 0) (ht : 0 < t) :
    fLVdedx T z m [P / z] [n, o, t]
      = some (o + z ^ 2 * (n * deltapLV T 1 m P t / t
          + n * (K/2*Z_eff/A_eff/(P*P/(P*P+m*m))*rho_P10) * Real.log (z ^ 2))) := by
  have hxi : K/2*Z_eff/A_eff*1*1/(P*P/(P*P+m*m))*(rho_P10*t) ≠ 0 :=
    (xi_pos 1 m P t one_ne_zero hm hP ht).ne'
  rw [fLVdedx_eq, div_mul_cancel₀ P hz, deltapLV_charge T hT z m P t hz hxi]
  congr 1
  field_simp
  ring

/-- The coefficient of `z² ln z²` in the most probable response is positive. -/
theorem kappa_pos (m P n : ℝ) (hm : 0 < m) (hP : P ≠ 0) (hn : 0 < n) :
    0 < n * (K/2*Z_eff/A_eff/(P*P/(P*P+m*m))*rho_P10) := by
  have hb := (b2_bounds m P hm hP).1
  have hc : (0 : ℝ) < K/2*Z_eff/A_eff := by
    norm_num [K, Z_eff, A_eff, Z_Ar, Z_C, Z_H, A_Ar, A_C, A_H]
  have hr : (0 : ℝ) < rho_P10 := by norm_num [rho_P10]
  positivity

/-- C11, amended. Over the reals, for every mass `m > 0`, momentum `P ≠ 0`, calibration
`(n > 0, o, t > 0)` and charges `z1, z2 ≠ 0` with `z1² < z2²`, the responses with co-scaled
rigidity are `fLVdedx(z, m, [P/z], [n, o, t]) = o + z² ((u - o) + κ ln z²)`, where
`u = fLVdedx(1, m, [P], [n, o, t])` is the unit-charge response and
`κ = n (K/2) (Z_eff/A_eff) ρ / b2 > 0`. They are strictly increasing when
`(u - o) + κ (1 + ln z1²) ≥ 0` and strictly decreasing when `(u - o) + κ (1 + ln z2²) ≤ 0`:
the response decreases in `z²` up to the turning point `z² = exp(-1 - (u - o)/κ)` and
increases after it. -/
theorem mpv_charge_sq_monotonicity (T : TMath ℝ) (hT : T.IsReal) (m P n o t z1 z2 : ℝ)
    (hm : 0 < m) (hP : P ≠ 0) (hn : 0 < n) (ht : 0 < t) (hz1 : z1 ≠ 0) (hz2 : z2 ≠ 0)
    (h : z1 ^ 2 < z2 ^ 2) :
    ∃ u r1 r2 κ : ℝ, fLVdedx T 1 m [P] [n, o, t] = some u ∧
      fLVdedx T z1 m [P / z1] [n, o, t] = some r1 ∧
      fLVdedx T z2 m [P / z2] [n, o, t] = some r2 ∧
      κ = n * (K/2*Z_eff/A_eff/(P*P/(P*P+m*m))*rho_P10) ∧ 0 < κ ∧
      r1 = o + z1 ^ 2 * ((u - o) + κ * Real.log (z1 ^ 2)) ∧
      r2 = o + z2 ^ 2 * ((u - o) + κ * Real.log (z2 ^ 2)) ∧
      (0 ≤ (u - o) + κ * (1 + Real.log (z1 ^ 2)) → r1 < r2) ∧
      ((u - o) + κ * (1 + Real.log (z2 ^ 2)) ≤ 0 → r2 < r1) := by
  have hκ := kappa_pos m P n hm hP hn
  have hs1 : 0 < z1 ^ 2 := by positivity
  refine ⟨_, _, _, _, fLVdedx_eq .., fLVdedx_coscaled T hT z1 m P n o t hz1 hm hP ht,
    fLVdedx_coscaled T hT z2 m P n o t hz2 hm hP ht, rfl, hκ, ?_, ?_, ?_, ?_⟩
  · rw [mul_one, add_sub_cancel_right]
  · rw [mul_one, add_sub_cancel_right]
  · intro h0
    rw [mul_one, add_sub_cancel_right] at h0
    have := mul_log_lt_of_nonneg _ _ _ _ hκ hs1 h h0
    linarith
  · intro h0
    rw [mul_one, add_sub_cancel_right] at h0
    have := mul_log_lt_of_nonpos _ _ _ _ hκ hs1 h h0
    linarith

/-- The function `z ↦ z² (a + κ ln z²)` with `κ > 0` is not monotonic in `z²`: around the
turning point `z² = exp(-1 - a/κ)` it takes larger values on both sides. -/
theorem mul_log_turning (a κ : ℝ) (hκ : 0 < κ) :
    ∃ z1 z2 z3 : ℝ, z1 ≠ 0 ∧ z2 ≠ 0 ∧ z3 ≠ 0 ∧ z1 ^ 2 < z2 ^ 2 ∧ z2 ^ 2 < z3 ^ 2 ∧
      z2 ^ 2 * (a + κ * Real.log (z2 ^ 2)) < z1 ^ 2 * (a + κ * Real.log (z1 ^ 2)) ∧
      z2 ^ 2 * (a + κ * Real.log (z2 ^ 2)) < z3 ^ 2 * (a + κ * Real.log (z3 ^ 2)) := by
  have hsq : ∀ x : ℝ, Real.exp (x / 2) ^ 2 = Real.exp x := by
    intro x
    rw [← Real.exp_nat_mul]
    congr 1
    push_cast
    ring
  have h12 : Real.exp (-2 - a / κ) < Real.exp (-1 - a / κ) := Real.exp_lt_exp.mpr (by linarith)
  have h23 : Real.exp (-1 - a / κ) < Real.exp (-(a / κ)) := Real.exp_lt_exp.mpr (by linarith)
  have h0 : a + κ * (1 + Real.log (Real.exp (-1 - a / κ))) = 0 := by
    rw [Real.log_exp]
    field_simp
    ring
  refine ⟨Real.exp ((-2 - a / κ) / 2), Real.exp ((-1 - a / κ) / 2), Real.exp (-(a / κ) / 2),
    (Real.exp_pos _).ne', (Real.exp_pos _).ne', (Real.exp_pos _).ne', ?_, ?_, ?_, ?_⟩
  · rw [hsq, hsq]; exact h12
  · rw [hsq, hsq]; exact h23
  · rw [hsq, hsq]
    exact mul_log_lt_of_nonpos a κ _ _ hκ (Real.exp_pos _) h12 h0.le
  · rw [hsq, hsq]
    exact mul_log_lt_of_nonneg a κ _ _ hκ (Real.exp_pos _) h23 h0.ge

/-- C11, counterexample. It is not true that for every mass `m > 0`, momentum `P ≠ 0` and
calibration `(n > 0, o, t > 0)` the response `fLVdedx(z, m, [P/z], [n, o, t])` is a strictly
monotonic function of `z²` over `z ≠ 0`: for the proton example (`m = 938.272`, `P = 1000`,
calibration `(1, 0, 1)`) the response is smaller at the turning point than at a smaller and at
a larger `z²`. -/
theorem mpv_charge_sq_not_monotonic :
    ¬ ∀ m P n o t : ℝ, 0 < m → P ≠ 0 → 0 < n → 0 < t →
      ∃ f : ℝ → ℝ,
        (∀ z, z ≠ 0 →
          fLVdedx ⟨Real.log, Real.logb 10, Real.sqrt, fun x y => x ^ y⟩ z m [P / z] [n, o, t]
            = some (f z)) ∧
        ((∀ z1 z2, z1 ≠ 0 → z2 ≠ 0 → z1 ^ 2 < z2 ^ 2 → f z1 < f z2) ∨
          (∀ z1 z2, z1 ≠ 0 → z2 ≠ 0 → z1 ^ 2 < z2 ^ 2 → f z2 < f z1)) := by
  intro h
  have hm : (0 : ℝ) < 938.272 := by norm_num
  have hP : (1000 : ℝ) ≠ 0 := by norm_num
  obtain ⟨f, hf, hmono⟩ := h 938.272 1000 1 0 1 hm hP one_pos one_pos
  have hκ := kappa_pos 938.272 1000 1 hm hP one_pos
  obtain ⟨z1, z2, z3, hz1, hz2, hz3, h12, h23, hlt1, hlt3⟩ := mul_log_turning
    (1 * deltapLV ⟨Real.log, Real.logb 10, Real.sqrt, fun x y => x ^ y⟩ 1 938.272 1000 1 / 1)
    _ hκ
  have hval : ∀ z, z ≠ 0 → f z = 0 + z ^ 2
      * (1 * deltapLV ⟨Real.log, Real.logb 10, Real.sqrt, fun x y => x ^ y⟩ 1 938.272 1000 1 / 1
        + 1 * (K/2*Z_eff/A_eff/(1000*1000/(1000*1000+938.272*938.272))*rho_P10)
          * Real.log (z ^ 2)) := by
    intro z hz
    have e := hf z hz
    rw [fLVdedx_coscaled _ isReal_mk z 938.272 1000 1 0 1 hz hm hP one_pos] at e
    exact (Option.some.inj e).symm
  rcases hmono with hinc | hdec
  · have := hinc z1 z2 hz1 hz2 h12
    rw [hval z1 hz1, hval z2 hz2] at this
    linarith
  · have := hdec z2 z3 hz2 hz3 h23
    rw [hval z2 hz2, hval z3 hz3] at this
    linarith

/-- Witness of C11 (amended) at the proton example with thickness `1.2` and the charges `1`
and `2`. -/
theorem mpv_charge_sq_monotonicity_witness :
    TMath.IsReal ⟨Real.log, Real.logb 10, Real.sqrt, fun x y => x ^ y⟩ ∧
    (0 : ℝ) < 938.272 ∧ (1000 : ℝ) ≠ 0 ∧ (0 : ℝ) < 1 ∧ (0 : ℝ) < 1.2 ∧ (1 : ℝ) ≠ 0 ∧
    (2 : ℝ) ≠ 0 ∧ (1 : ℝ) ^ 2 < 2 ^ 2 ∧
    ∃ u r1 r2 κ : ℝ,
      fLVdedx ⟨Real.log, Real.logb 10, Real.sqrt, fun x y => x ^ y⟩ 1 938.272 [1000]
        [1, 0, 1.2] = some u ∧
      fLVdedx ⟨Real.log, Real.logb 10, Real.sqrt, fun x y => x ^ y⟩ 1 938.272 [1000 / 1]
        [1, 0, 1.2] = some r1 ∧
      fLVdedx ⟨Real.log, Real.logb 10, Real.sqrt, fun x y => x ^ y⟩ 2 938.272 [1000 / 2]
        [1, 0, 1.2] = some r2 ∧
      κ = 1 * (K/2*Z_eff/A_eff/(1000*1000/(1000*1000+938.272*938.272))*rho_P10) ∧ 0 < κ ∧
      r1 = 0 + 1 ^ 2 * ((u - 0) + κ * Real.log (1 ^ 2)) ∧
      r2 = 0 + 2 ^ 2 * ((u - 0) + κ * Real.log (2 ^ 2)) ∧
      (0 ≤ (u - 0) + κ * (1 + Real.log (1 ^ 2)) → r1 < r2) ∧
      ((u - 0) + κ * (1 + Real.log (2 ^ 2)) ≤ 0 → r2 < r1) :=
  ⟨isReal_mk, by norm_num, by norm_num, by norm_num, by norm_num, one_ne_zero, two_ne_zero,
    by norm_num,
    mpv_charge_sq_monotonicity _ isReal_mk 938.272 1000 1 0 1.2 1 2 (by norm_num) (by norm_num)
      (by norm_num) (by norm_num) one_ne_zero two_ne_zero (by norm_num)⟩

/-! ## The root finder and the parameter arrays (C12, C14) -/

/-- C12, counterexample. With a root finder whose `Solve()` reports failure (flag `false`) and
whose `Root()` holds `4242`, `CalcBBMass` and `CalcLVMass` hand back `4242` as a mass. -/
theorem calc_mass_hands_back_root_on_failure :
    CalcBBMass (fun _ _ _ => (false, 4242))
      ⟨Real.log, Real.logb 10, Real.sqrt, fun x y => x ^ y⟩ [1, 0, 1, 1000, 0.5] = (4242 : ℝ) ∧
    CalcLVMass (fun _ _ _ => (false, 4242))
      ⟨Real.log, Real.logb 10, Real.sqrt, fun x y => x ^ y⟩ [1, 0, 1.2, 1, 1000, 0.5] = (4242 : ℝ) :=
  ⟨rfl, rfl⟩

/-- C12, amended. `CalcBBMass` and `CalcLVMass` return the value of the finder's `Root()`
whatever flag its `Solve()` returned: for a finder with the flag `flag` and the root value
`root`, the result is `root` of the residual on the bracket `[0.1, 10000]`, and `flag` does not
enter it. A failed solve is not reported to the caller. -/
theorem calc_mass_ignores_solve_flag {α : Type} [LinearOrderedField α] (T : TMath α)
    (flag : (α → Option α) → α → α → Bool) (root : (α → Option α) → α → α → α)
    (p : List α) :
    CalcBBMass (fun f lo hi => (flag f lo hi, root f lo hi)) T p
      = root (fun m => BBMassFinderEq T [m] (p.take 5)) 0.1 10000 ∧
    CalcLVMass (fun f lo hi => (flag f lo hi, root f lo hi)) T p
      = root (fun m => LVMassFinderEq T [m] (p.take 6)) 0.1 10000 :=
  ⟨rfl, rfl⟩

/-- C14, the source at the failing input. For every 6-element parameter vector, and for the
6 parameters `p[0..5]` that `CalcLVMass` hands to the residual, `LVMassFinderEq` reads the index
`6` and so hits the out-of-range case (`none`) for every mass; `BBMassFinderEq` with its 5
parameters does not. -/
theorem LVMassFinderEq_reads_out_of_range {α : Type} [LinearOrderedField α] (T : TMath α)
    (m : α) :
    (∀ p0 p1 p2 p3 p4 p5 : α, LVMassFinderEq T [m] [p0, p1, p2, p3, p4, p5] = none) ∧
    (∀ p : List α, LVMassFinderEq T [m] (p.take 6) = none) ∧
    (∀ p0 p1 p2 p3 p4 : α, ∃ v, BBMassFinderEq T [m] [p0, p1, p2, p3, p4] = some v) := by
  refine ⟨fun p0 p1 p2 p3 p4 p5 => ?_, fun p => ?_, fun p0 p1 p2 p3 p4 => ⟨_, BBMassFinderEq_eq ..⟩⟩
  · simp [LVMassFinderEq, delta_Ar_eq, delta_CH4_eq]
  · have h : (p.take 6)[6]? = none := by
      rw [List.getElem?_eq_none_iff]
      simp
    simp only [LVMassFinderEq, h]
    simp

/-! ## Charge-squared scaling and sign symmetry (C15, C16) -/

/-- C15. For every charge `z`, mass `m`, rigidity `R` and calibration `(p0, p1)`, `fBBdedx`
returns a value `v` for the charge `z` at the rigidity `R` and a value `u` for unit charge at
the rigidity `z*R`, and `v - p1 = z² (u - p1)`. This holds over every ordered field and for
every implementation of the `TMath` functions, in particular over the reals and for `z ≠ 0`. -/
theorem fBBdedx_charge_sq_scaling {α : Type} [LinearOrderedField α] (T : TMath α)
    (z m R p0 p1 : α) :
    ∃ v u, fBBdedx T z m [R] [p0, p1] = some v ∧
      fBBdedx T 1 m [z * R] [p0, p1] = some u ∧
      v - p1 = z ^ 2 * (u - p1) := by
  refine ⟨_, _, fBBdedx_eq .., fBBdedx_eq .., ?_⟩
  rw [mul_one, mul_comm z R, dedxBB_charge_sq T z m (R * z)]
  ring

/-- The mean model does not change when the charge changes sign, for arrays of any length. -/
theorem fBBdedx_neg_charge {α : Type} [LinearOrderedField α] (T : TMath α) (z m : α)
    (x p : List α) : fBBdedx T (-z) m x p = fBBdedx T z m x p := by
  simp only [fBBdedx, mul_neg, neg_mul, neg_neg]

/-- The mean model does not change when the rigidity changes sign. -/
theorem fBBdedx_neg_rigidity {α : Type} [LinearOrderedField α] (T : TMath α) (z m R : α)
    (p : List α) : fBBdedx T z m [-R] p = fBBdedx T z m [R] p := by
  simp only [fBBdedx, List.getElem?_cons_zero, Option.pure_def, Option.bind_eq_bind,
    Option.some_bind, mul_neg, neg_mul, neg_neg]

/-- The most probable model does not change when the charge changes sign. -/
theorem fLVdedx_neg_charge {α : Type} [LinearOrderedField α] (T : TMath α) (z m : α)
    (x p : List α) : fLVdedx T (-z) m x p = fLVdedx T z m x p := by
  simp only [fLVdedx, mul_neg, neg_mul, neg_neg]

/-- The most probable model does not change when the rigidity changes sign. -/
theorem fLVdedx_neg_rigidity {α : Type} [LinearOrderedField α] (T : TMath α) (z m R : α)
    (p : List α) : fLVdedx T z m [-R] p = fLVdedx T z m [R] p := by
  simp only [fLVdedx, List.getElem?_cons_zero, Option.pure_def, Option.bind_eq_bind,
    Option.some_bind, mul_neg, neg_mul, neg_neg]

/-- C16. For every `z`, `m`, rigidity `R` and calibration array `p`,
`fBBdedx(-z, m, [R], p) = fBBdedx(z, m, [R], p) = fBBdedx(z, m, [-R], p)`, the same holds for
`fLVdedx`, and `fBBdedx_pim` returns the same as `fBBdedx_pi` on every input. This holds over
every ordered field and for every implementation of the `TMath` functions. -/
theorem dedx_sign_symmetry {α : Type} [LinearOrderedField α] (T : TMath α) (z m R : α)
    (p : List α) :
    (fBBdedx T (-z) m [R] p = fBBdedx T z m [R] p ∧
      fBBdedx T z m [R] p = fBBdedx T z m [-R] p) ∧
    (fLVdedx T (-z) m [R] p = fLVdedx T z m [R] p ∧
      fLVdedx T z m [R] p = fLVdedx T z m [-R] p) ∧
    (∀ x q : List α, fBBdedx_pim T x q = fBBdedx_pi T x q) :=
  ⟨⟨fBBdedx_neg_charge T z m [R] p, (fBBdedx_neg_rigidity T z m R p).symm⟩,
    ⟨fLVdedx_neg_charge T z m [R] p, (fLVdedx_neg_rigidity T z m R p).symm⟩,
    fun x q => fBBdedx_neg_charge T 1 kmpi x q⟩

end MassEstimator
